import Mathlib

set_option maxHeartbeats 1000000

/- Verification development for the petite-vue reactivity core.

   The sources under src/reactivity (reactive.ts, collectionHandlers.ts,
   effectScope.ts, computed.ts) are embedded shallowly over an explicit
   heap of JavaScript values.  `constants.ts`, `dep.ts`, `effect.ts` and
   `baseHandlers.ts` are imported by those files but are not part of the
   source tree; the few places where their behavior matters are modelled
   from the specification and marked as such in their doc comments. -/

inductive Prim where
  | null
  | undefV
  | boolV (b : Bool)
  | intV (n : Int)
  | negZero
  | nanV
  | strV (s : String)
deriving DecidableEq

/-- A JavaScript value: a primitive or a heap object identified by address.
Structural (decidable) equality on this type coincides with JavaScript
`Object.is` (SameValue): `nanV` equals itself, and `negZero` is distinct
from `intV 0`. -/
inductive JSVal where
  | prim (p : Prim)
  | obj (addr : Nat)
deriving DecidableEq

/-- src/utils.ts `hasChanged`: `!Object.is(value, oldValue)`.  `Object.is`
is structural equality of `JSVal`. -/
def hasChanged (value oldValue : JSVal) : Bool := !(value == oldValue)

/-- Whether a value is the number zero (of either sign). -/
def isZeroNum (v : JSVal) : Bool :=
  v == .prim (.intV 0) || v == .prim .negZero

/-- JavaScript SameValueZero, the key equality used by `Map` and `Set`:
SameValue except that `+0` and `-0` are identified. -/
def sameValueZero (a b : JSVal) : Bool :=
  a == b || (isZeroNum a && isZeroNum b)

/-- The runtime type of a heap object, as produced by utils.ts `toRawType`
(the tag of `Object.prototype.toString`).  `funcLike` stands for values
with `typeof v === 'function'`, which fail utils.ts `isObject`. -/
inductive ObjType where
  | plainObj
  | arrayObj
  | mapObj
  | setObj
  | weakMapObj
  | weakSetObj
  | dateLike
  | funcLike
deriving DecidableEq

inductive TargetType where
  | invalid
  | common
  | collection
deriving DecidableEq

/-- reactive.ts `targetTypeMap`: Object and Array are COMMON; Map, Set,
WeakMap and WeakSet are COLLECTION; everything else is INVALID. -/
def targetTypeMap : ObjType → TargetType
  | .plainObj => .common
  | .arrayObj => .common
  | .mapObj => .collection
  | .setObj => .collection
  | .weakMapObj => .collection
  | .weakSetObj => .collection
  | _ => .invalid

/-- constants.ts is not in the source tree.  Modelled from the spec:
`TriggerOpTypes` names the four mutation kinds ADD, SET, DELETE, CLEAR
used by trigger calls and by `createReadonlyMethod`. -/
inductive TriggerOpTypes where
  | add
  | set
  | delete
  | clear
deriving DecidableEq

/-- Identity of a proxy created by `createReactiveObject`: the address of
its target and the `isReadonly` flag of the handler it was created with. -/
structure ProxyInfo where
  target : Nat
  isReadonly : Bool
deriving DecidableEq

/-- A heap object.  Raw objects have `proxyInfo = none`; proxies carry the
target and flavor of their handler.  `skipFlag`, `isReadonlyOwn` and
`isShallowOwn` are the object's own `__v_skip` / `__v_isReadonly` /
`__v_isShallow` properties (a computed without a setter, for example, has
`isReadonlyOwn = true`).  `entries` is the internal contents of a Map or
Set (for a Set, each element is stored as a `(v, v)` pair). -/
structure ObjData where
  otype : ObjType
  extensible : Bool
  skipFlag : Bool
  isReadonlyOwn : Bool
  isShallowOwn : Bool
  proxyInfo : Option ProxyInfo
  entries : List (JSVal × JSVal)
deriving DecidableEq

/-- dep.ts is not in the source tree.  Modelled from the spec: a `trigger`
call is recorded as an event carrying the target, the op type, the key and
new value passed, and a snapshot of the target's entries at trigger time
(what notified subscribers observe). -/
structure REvent where
  target : Nat
  type : TriggerOpTypes
  key : Option JSVal
  newValue : Option JSVal
  snapshot : List (JSVal × JSVal)
deriving DecidableEq

/-- The reactivity heap: objects addressed by `Nat`, the two proxy caches
of reactive.ts (`reactiveMap`, `readonlyMap`), and the chronological list
of trigger events. -/
structure RState where
  nextAddr : Nat
  objs : List (Nat × ObjData)
  reactiveMap : List (Nat × Nat)
  readonlyMap : List (Nat × Nat)
  events : List REvent
deriving DecidableEq

/-- Association-list lookup by natural-number key (first match wins, like
a JavaScript Map or WeakMap keyed by identity). -/
def alookup {α : Type} : List (Nat × α) → Nat → Option α
  | [], _ => none
  | (k, v) :: rest, i => if k = i then some v else alookup rest i

/-- Update the first entry with the given key, leaving other keys alone. -/
def aupdate {α : Type} : List (Nat × α) → Nat → (α → α) → List (Nat × α)
  | [], _, _ => []
  | (k, v) :: rest, i, f =>
    if k = i then (k, f v) :: rest else (k, v) :: aupdate rest i f

theorem alookup_aupdate_self {α : Type} (l : List (Nat × α)) (i : Nat) (f : α → α) :
    alookup (aupdate l i f) i = (alookup l i).map f := by
  induction l with
  | nil => simp [alookup, aupdate]
  | cons hd tl ih =>
    obtain ⟨k, v⟩ := hd
    by_cases h : k = i
    · simp [alookup, aupdate, h]
    · simp [alookup, aupdate, h, ih]

theorem alookup_aupdate_ne {α : Type} (l : List (Nat × α)) (i j : Nat) (f : α → α)
    (h : j ≠ i) : alookup (aupdate l i f) j = alookup l j := by
  induction l with
  | nil => simp [alookup, aupdate]
  | cons hd tl ih =>
    obtain ⟨k, v⟩ := hd
    by_cases hk : k = i
    · subst hk
      simp [alookup, aupdate, Ne.symm h]
    · by_cases hj : k = j
      · subst hj
        simp [alookup, aupdate, h]
      · simp [alookup, aupdate, hk, hj, ih]

theorem alookup_mem {α : Type} {l : List (Nat × α)} {k : Nat} {v : α}
    (h : alookup l k = some v) : (k, v) ∈ l := by
  induction l with
  | nil => simp [alookup] at h
  | cons hd tl ih =>
    obtain ⟨k', v'⟩ := hd
    by_cases hk : k' = k
    · subst hk
      simp [alookup] at h
      simp [h]
    · simp [alookup, hk] at h
      exact List.mem_cons_of_mem _ (ih h)

def lookupObj (s : RState) (a : Nat) : Option ObjData := alookup s.objs a

/-- Contents of the Map or Set at address `a` (empty if absent). -/
def entriesOf (s : RState) (a : Nat) : List (JSVal × JSVal) :=
  match alookup s.objs a with
  | some d => d.entries
  | none => []

/-- Reading `value[ReactiveFlags.RAW]` on an object: truthy exactly on
proxies (both handler families return the raw target for the RAW key;
collectionHandlers.ts lines 253-254, base handlers per spec section 4.6;
raw objects are modelled without an own `__v_raw` property). -/
def readRawIsSome (s : RState) (a : Nat) : Bool :=
  match alookup s.objs a with
  | some d => d.proxyInfo.isSome
  | none => false

/-- Reading `value[ReactiveFlags.IS_REACTIVE]`: a proxy answers with the
negation of its handler's readonly flag (collectionHandlers.ts line 250,
base handlers per spec section 4.6); a raw object yields `undefined`. -/
def readIsReactive (s : RState) (a : Nat) : Bool :=
  match alookup s.objs a with
  | some d =>
    match d.proxyInfo with
    | some pi => ! pi.isReadonly
    | none => false
  | none => false

/-- reactive.ts `isReadonly`: `!!(value && value[ReactiveFlags.IS_READONLY])`.
A proxy answers with its handler's readonly flag (collectionHandlers.ts
line 252, base handlers per spec section 4.6); a raw object answers with
its own `__v_isReadonly` property; primitives yield false. -/
def isReadonly (s : RState) (v : JSVal) : Bool :=
  match v with
  | .prim _ => false
  | .obj a =>
    match alookup s.objs a with
    | some d =>
      match d.proxyInfo with
      | some pi => pi.isReadonly
      | none => d.isReadonlyOwn
    | none => false

/-- Reading `value[ReactiveFlags.SKIP]` through an arbitrary chain of
proxies: neither handler family intercepts the SKIP key, so the read is
forwarded to the target; a raw object answers with its own flag.  The
fuel argument bounds the forwarding depth. -/
def readSkipF (s : RState) : Nat → Nat → Bool
  | 0, _ => false
  | fuel + 1, a =>
    match alookup s.objs a with
    | some d =>
      match d.proxyInfo with
      | some pi => readSkipF s fuel pi.target
      | none => d.skipFlag
    | none => false

/-- `Object.isExtensible` forwarded through proxies to the raw target. -/
def isExtensibleF (s : RState) : Nat → Nat → Bool
  | 0, _ => false
  | fuel + 1, a =>
    match alookup s.objs a with
    | some d =>
      match d.proxyInfo with
      | some pi => isExtensibleF s fuel pi.target
      | none => d.extensible
    | none => false

/-- utils.ts `toRawType` forwarded through proxies: `Object.prototype.toString`
resolves `Symbol.toStringTag` through the proxy get handler, so a proxy
reports its target's runtime type. -/
def rawTypeF (s : RState) : Nat → Nat → ObjType
  | 0, _ => .plainObj
  | fuel + 1, a =>
    match alookup s.objs a with
    | some d =>
      match d.proxyInfo with
      | some pi => rawTypeF s fuel pi.target
      | none => d.otype
    | none => .plainObj

/-- reactive.ts `isShallow` read: the IS_SHALLOW key is not intercepted by
the collection getter (it is forwarded to the target), while the base
handlers answer with their handler's shallow flag, which is false for both
handler families of this repository (base handlers per spec section 4.6). -/
def isShallowF (s : RState) : Nat → JSVal → Bool
  | 0, _ => false
  | fuel + 1, v =>
    match v with
    | .prim _ => false
    | .obj a =>
      match alookup s.objs a with
      | some d =>
        match d.proxyInfo with
        | some pi =>
          if targetTypeMap d.otype == .collection then
            isShallowF s fuel (.obj pi.target)
          else
            false
        | none => d.isShallowOwn
      | none => false

def isShallow (s : RState) (v : JSVal) : Bool := isShallowF s s.nextAddr v

/-- reactive.ts `toRaw`: follow the RAW back-pointer until a non-proxy is
reached.  The fuel argument bounds the chain length. -/
def toRawF (s : RState) : Nat → JSVal → JSVal
  | 0, v => v
  | fuel + 1, v =>
    match v with
    | .obj a =>
      match alookup s.objs a with
      | some d =>
        match d.proxyInfo with
        | some pi => toRawF s fuel (.obj pi.target)
        | none => v
      | none => v
    | .prim _ => v

def toRaw (s : RState) (v : JSVal) : JSVal := toRawF s s.nextAddr v

/-- reactive.ts `getTargetType`:
`value[SKIP] || !Object.isExtensible(value) ? INVALID : targetTypeMap(toRawType(value))`. -/
def getTargetType (s : RState) (a : Nat) : TargetType :=
  if readSkipF s s.nextAddr a || ! isExtensibleF s s.nextAddr a then
    .invalid
  else
    targetTypeMap (rawTypeF s s.nextAddr a)

/-- reactive.ts `createReactiveObject` (lines 169-203): reject non-objects,
return proxies unchanged (except readonly over a reactive proxy), reject
INVALID target types, return the cached proxy when present, otherwise
create a fresh proxy and cache it in the flavor's map. -/
def createReactiveObject (s : RState) (target : JSVal) (isRo : Bool) :
    RState × JSVal :=
  match target with
  | .prim _ => (s, target)
  | .obj a =>
    match alookup s.objs a with
    | none => (s, target)
    | some d =>
      if d.otype == .funcLike then
        (s, target)
      else if readRawIsSome s a && ! (isRo && readIsReactive s a) then
        (s, target)
      else if getTargetType s a == .invalid then
        (s, target)
      else
        match alookup (if isRo then s.readonlyMap else s.reactiveMap) a with
        | some p => (s, .obj p)
        | none =>
          let pd : ObjData :=
            { otype := d.otype
              extensible := d.extensible
              skipFlag := false
              isReadonlyOwn := false
              isShallowOwn := false
              proxyInfo := some ⟨a, isRo⟩
              entries := [] }
          ({ s with
              nextAddr := s.nextAddr + 1
              objs := (s.nextAddr, pd) :: s.objs
              reactiveMap :=
                if isRo then s.reactiveMap else (a, s.nextAddr) :: s.reactiveMap
              readonlyMap :=
                if isRo then (a, s.nextAddr) :: s.readonlyMap else s.readonlyMap },
            .obj s.nextAddr)

/-- reactive.ts `reactive`: return readonly proxies unchanged, otherwise
`createReactiveObject` with the mutable handlers and `reactiveMap`. -/
def reactive (s : RState) (target : JSVal) : RState × JSVal :=
  if isReadonly s target then (s, target) else createReactiveObject s target false

/-- reactive.ts `readonly`: `createReactiveObject` with the readonly
handlers and `readonlyMap`. -/
def readonly (s : RState) (target : JSVal) : RState × JSVal :=
  createReactiveObject s target true

theorem toRawF_raw {s : RState} {o : Nat} {d : ObjData}
    (h : alookup s.objs o = some d) (hr : d.proxyInfo = none) :
    ∀ fuel, toRawF s fuel (.obj o) = .obj o := by
  intro fuel
  cases fuel with
  | zero => rfl
  | succ n => simp [toRawF, h, hr]

theorem toRaw_raw {s : RState} {o : Nat} {d : ObjData}
    (h : alookup s.objs o = some d) (hr : d.proxyInfo = none) :
    toRaw s (.obj o) = .obj o :=
  toRawF_raw h hr s.nextAddr

theorem toRaw_proxy1 {s : RState} {p o : Nat} {dp d : ObjData} {b : Bool}
    (hp : alookup s.objs p = some dp) (hpi : dp.proxyInfo = some ⟨o, b⟩)
    (ho : alookup s.objs o = some d) (hr : d.proxyInfo = none)
    (hlt : p < s.nextAddr) :
    toRaw s (.obj p) = .obj o := by
  obtain ⟨n, hn⟩ : ∃ n, s.nextAddr = n + 1 := ⟨s.nextAddr - 1, by omega⟩
  unfold toRaw
  rw [hn]
  simp [toRawF, hp, hpi]
  exact toRawF_raw ho hr n

theorem toRaw_proxy2 {s : RState} {q p o : Nat} {dq dp d : ObjData}
    {b b' : Bool}
    (hq : alookup s.objs q = some dq) (hqi : dq.proxyInfo = some ⟨p, b'⟩)
    (hp : alookup s.objs p = some dp) (hpi : dp.proxyInfo = some ⟨o, b⟩)
    (ho : alookup s.objs o = some d) (hr : d.proxyInfo = none)
    (hqlt : q < s.nextAddr) (hplt : p < s.nextAddr) (hne : q ≠ p) :
    toRaw s (.obj q) = .obj o := by
  obtain ⟨n, hn⟩ : ∃ n, s.nextAddr = n + 2 := by
    refine ⟨s.nextAddr - 2, ?_⟩
    omega
  unfold toRaw
  rw [hn]
  simp [toRawF, hq, hqi, hp, hpi]
  exact toRawF_raw ho hr n

theorem readSkipF_raw {s : RState} {a : Nat} {d : ObjData}
    (h : alookup s.objs a = some d) (hr : d.proxyInfo = none) :
    ∀ n, readSkipF s (n + 1) a = d.skipFlag := by
  intro n
  simp [readSkipF, h, hr]

theorem isExtensibleF_raw {s : RState} {a : Nat} {d : ObjData}
    (h : alookup s.objs a = some d) (hr : d.proxyInfo = none) :
    ∀ n, isExtensibleF s (n + 1) a = d.extensible := by
  intro n
  simp [isExtensibleF, h, hr]

theorem rawTypeF_raw {s : RState} {a : Nat} {d : ObjData}
    (h : alookup s.objs a = some d) (hr : d.proxyInfo = none) :
    ∀ n, rawTypeF s (n + 1) a = d.otype := by
  intro n
  simp [rawTypeF, h, hr]

/-- Well-formedness of a reactivity heap, as a decidable check: every
object address is below `nextAddr`, every proxy's target was allocated
before the proxy, `reactiveMap` sends a raw object to a mutable proxy
over it, and `readonlyMap` sends an object to a readonly proxy over it. -/
def rwfB (s : RState) : Bool :=
  (s.objs.all fun p =>
    decide (p.1 < s.nextAddr) &&
      (match p.2.proxyInfo with
       | some pi =>
         decide (pi.target < p.1) &&
           (match alookup s.objs pi.target with
            | some td => p.2.otype == td.otype
            | none => false)
       | none => true))
  && (s.reactiveMap.all fun q =>
      (match alookup s.objs q.2 with
       | some d => d.proxyInfo == some ⟨q.1, false⟩
       | none => false)
      && (match alookup s.objs q.1 with
          | some d => d.proxyInfo == none
          | none => false))
  && (s.readonlyMap.all fun q =>
      match alookup s.objs q.2 with
      | some d => d.proxyInfo == some ⟨q.1, true⟩
      | none => false)

theorem rwf_addrLt {s : RState} {a : Nat} {d : ObjData}
    (hw : rwfB s = true) (h : alookup s.objs a = some d) : a < s.nextAddr := by
  have hm := alookup_mem h
  simp [rwfB, List.all_eq_true] at hw
  have := hw.1.1 a d hm
  exact this.1

theorem rwf_targetLt {s : RState} {a : Nat} {d : ObjData} {pi : ProxyInfo}
    (hw : rwfB s = true) (h : alookup s.objs a = some d)
    (hpi : d.proxyInfo = some pi) : pi.target < a := by
  have hm := alookup_mem h
  simp [rwfB, List.all_eq_true] at hw
  have := (hw.1.1 a d hm).2
  rw [hpi] at this
  simp at this
  exact this.1

theorem rwf_proxyOtype {s : RState} {a : Nat} {d : ObjData} {pi : ProxyInfo}
    (hw : rwfB s = true) (h : alookup s.objs a = some d)
    (hpi : d.proxyInfo = some pi) :
    ∃ td, alookup s.objs pi.target = some td ∧ d.otype = td.otype := by
  have hm := alookup_mem h
  simp [rwfB, List.all_eq_true] at hw
  have := (hw.1.1 a d hm).2
  rw [hpi] at this
  simp at this
  obtain ⟨-, h2⟩ := this
  cases ht : alookup s.objs pi.target with
  | none => rw [ht] at h2; simp at h2
  | some td =>
    rw [ht] at h2
    simp at h2
    exact ⟨td, rfl, h2⟩

theorem rwf_reactiveMap {s : RState} {k p : Nat}
    (hw : rwfB s = true) (h : alookup s.reactiveMap k = some p) :
    ∃ d dk, alookup s.objs p = some d ∧ d.proxyInfo = some ⟨k, false⟩ ∧
      alookup s.objs k = some dk ∧ dk.proxyInfo = none := by
  have hm := alookup_mem h
  simp [rwfB, List.all_eq_true] at hw
  have h2 := hw.1.2 k p hm
  obtain ⟨h2a, h2b⟩ := h2
  cases hd : alookup s.objs p with
  | none => simp [hd] at h2a
  | some d =>
    cases hk : alookup s.objs k with
    | none => simp [hk] at h2b
    | some dk =>
      simp [hd] at h2a
      simp [hk] at h2b
      exact ⟨d, dk, rfl, h2a, rfl, h2b⟩

theorem rwf_readonlyMap {s : RState} {k p : Nat}
    (hw : rwfB s = true) (h : alookup s.readonlyMap k = some p) :
    ∃ d, alookup s.objs p = some d ∧ d.proxyInfo = some ⟨k, true⟩ := by
  have hm := alookup_mem h
  simp [rwfB, List.all_eq_true] at hw
  have h2 := hw.2 k p hm
  cases hd : alookup s.objs p with
  | none => simp [hd] at h2
  | some d =>
    simp [hd] at h2
    exact ⟨d, rfl, h2⟩

/-- An object accepted for proxying by `createReactiveObject`: a raw
(non-proxy) object of a valid runtime type, extensible, not flagged skip,
and carrying no own reactivity flags. -/
def acceptedRawB (s : RState) (a : Nat) : Bool :=
  match alookup s.objs a with
  | some d =>
    d.proxyInfo == none && ! d.skipFlag && d.extensible &&
      ! (targetTypeMap d.otype == .invalid) && ! d.isReadonlyOwn
  | none => false

theorem alookup_cons_ne {α : Type} (l : List (Nat × α)) (k i : Nat) (v : α)
    (h : k ≠ i) : alookup ((k, v) :: l) i = alookup l i := by
  simp [alookup, h]

theorem alookup_cons_self {α : Type} (l : List (Nat × α)) (k : Nat) (v : α) :
    alookup ((k, v) :: l) k = some v := by
  simp [alookup]

theorem readSkipF_proxy1 {s : RState} {p o : Nat} {dp d : ObjData} {b : Bool}
    (hp : alookup s.objs p = some dp) (hpi : dp.proxyInfo = some ⟨o, b⟩)
    (ho : alookup s.objs o = some d) (hr : d.proxyInfo = none) :
    ∀ n, readSkipF s (n + 2) p = d.skipFlag := by
  intro n
  simp [readSkipF, hp, hpi, ho, hr]

theorem isExtensibleF_proxy1 {s : RState} {p o : Nat} {dp d : ObjData} {b : Bool}
    (hp : alookup s.objs p = some dp) (hpi : dp.proxyInfo = some ⟨o, b⟩)
    (ho : alookup s.objs o = some d) (hr : d.proxyInfo = none) :
    ∀ n, isExtensibleF s (n + 2) p = d.extensible := by
  intro n
  simp [isExtensibleF, hp, hpi, ho, hr]

theorem rawTypeF_proxy1 {s : RState} {p o : Nat} {dp d : ObjData} {b : Bool}
    (hp : alookup s.objs p = some dp) (hpi : dp.proxyInfo = some ⟨o, b⟩)
    (ho : alookup s.objs o = some d) (hr : d.proxyInfo = none) :
    ∀ n, rawTypeF s (n + 2) p = d.otype := by
  intro n
  simp [rawTypeF, hp, hpi, ho, hr]

/-- Claim C10: for every value on which `isReadonly` holds (a readonly
proxy, or an object carrying an own `__v_isReadonly` flag such as a
computed without a setter), `reactive` returns the value itself unchanged:
it does not unwrap to the raw object, creates no proxy, and leaves the
whole state — in particular `reactiveMap` — untouched. -/
theorem claim_C10 (s : RState) (x : JSVal) (h : isReadonly s x = true) :
    reactive s x = (s, x) := by
  simp [reactive, h]

def rawPlainData : ObjData :=
  { otype := .plainObj, extensible := true, skipFlag := false,
    isReadonlyOwn := false, isShallowOwn := false, proxyInfo := none,
    entries := [] }

def roProxyData : ObjData :=
  { otype := .plainObj, extensible := true, skipFlag := false,
    isReadonlyOwn := false, isShallowOwn := false,
    proxyInfo := some ⟨0, true⟩, entries := [] }

def sC10w : RState :=
  { nextAddr := 2, objs := [(0, rawPlainData), (1, roProxyData)],
    reactiveMap := [], readonlyMap := [(0, 1)], events := [] }

theorem claim_C10_witness :
    isReadonly sC10w (.obj 1) = true ∧ reactive sC10w (.obj 1) = (sC10w, .obj 1) :=
  ⟨by decide, claim_C10 sC10w (.obj 1) (by decide)⟩

/-- Claim C9: `reactive` and `readonly` return their input unchanged on
every non-object (primitives including null), on every non-extensible raw
object, on every raw object whose runtime type is not Object, Array, Map,
Set, WeakMap or WeakSet, and on every raw object flagged skip. -/
theorem claim_C9 (s : RState) (hw : rwfB s = true) :
    (∀ p : Prim,
      reactive s (.prim p) = (s, .prim p) ∧ readonly s (.prim p) = (s, .prim p))
    ∧ (∀ a d, alookup s.objs a = some d → d.proxyInfo = none →
        (d.extensible = false ∨ targetTypeMap d.otype = .invalid ∨
          d.skipFlag = true) →
        reactive s (.obj a) = (s, .obj a) ∧ readonly s (.obj a) = (s, .obj a)) := by
  constructor
  · intro p
    constructor
    · simp [reactive, isReadonly, createReactiveObject]
    · simp [readonly, createReactiveObject]
  · intro a d hlk hraw hcase
    have ha : a < s.nextAddr := rwf_addrLt hw hlk
    obtain ⟨n, hn⟩ : ∃ n, s.nextAddr = n + 1 := ⟨s.nextAddr - 1, by omega⟩
    have hskipF : readSkipF s s.nextAddr a = d.skipFlag := by
      rw [hn]; exact readSkipF_raw hlk hraw n
    have hextF : isExtensibleF s s.nextAddr a = d.extensible := by
      rw [hn]; exact isExtensibleF_raw hlk hraw n
    have htypeF : rawTypeF s s.nextAddr a = d.otype := by
      rw [hn]; exact rawTypeF_raw hlk hraw n
    have hinv : getTargetType s a = .invalid := by
      unfold getTargetType
      rw [hskipF, hextF, htypeF]
      rcases hcase with h1 | h1 | h1
      · simp [h1]
      · split
        · rfl
        · exact h1
      · simp [h1]
    have hC : ∀ isRo, createReactiveObject s (.obj a) isRo = (s, .obj a) := by
      intro isRo
      by_cases hfl : d.otype = .funcLike
      · simp [createReactiveObject, hlk, hfl]
      · simp [createReactiveObject, hlk, hfl, readRawIsSome, hraw, hinv]
    constructor
    · by_cases hro : isReadonly s (.obj a) = true
      · simp [reactive, hro]
      · simp only [reactive]
        rw [if_neg (by simp [hro])]
        exact hC false
    · exact hC true

def frozenData : ObjData :=
  { otype := .plainObj, extensible := false, skipFlag := false,
    isReadonlyOwn := false, isShallowOwn := false, proxyInfo := none,
    entries := [] }

def sC9w : RState :=
  { nextAddr := 1, objs := [(0, frozenData)], reactiveMap := [],
    readonlyMap := [], events := [] }

theorem claim_C9_witness :
    rwfB sC9w = true ∧
      (reactive sC9w (.obj 0) = (sC9w, .obj 0) ∧
        readonly sC9w (.obj 0) = (sC9w, .obj 0)) :=
  ⟨by decide,
    (claim_C9 sC9w (by decide)).2 0 frozenData (by decide) (by decide)
      (Or.inl (by decide))⟩

theorem rwfB_iff (s : RState) : rwfB s = true ↔
    ((∀ x dx, (x, dx) ∈ s.objs → x < s.nextAddr ∧
        ∀ pi, dx.proxyInfo = some pi → pi.target < x ∧
          ∃ td, alookup s.objs pi.target = some td ∧ dx.otype = td.otype)
      ∧ (∀ k p, (k, p) ∈ s.reactiveMap →
          (∃ dp, alookup s.objs p = some dp ∧ dp.proxyInfo = some ⟨k, false⟩) ∧
            ∃ dk, alookup s.objs k = some dk ∧ dk.proxyInfo = none)
      ∧ ∀ k p, (k, p) ∈ s.readonlyMap →
          ∃ dp, alookup s.objs p = some dp ∧ dp.proxyInfo = some ⟨k, true⟩) := by
  simp only [rwfB, Bool.and_eq_true, List.all_eq_true]
  constructor
  · rintro ⟨⟨h1, h2⟩, h3⟩
    refine ⟨?_, ?_, ?_⟩
    · intro x dx hm
      have hx := h1 (x, dx) hm
      simp only [Bool.and_eq_true, decide_eq_true_eq] at hx
      refine ⟨hx.1, ?_⟩
      intro pi hpi
      have hx2 := hx.2
      rw [hpi] at hx2
      simp only [Bool.and_eq_true, decide_eq_true_eq] at hx2
      refine ⟨hx2.1, ?_⟩
      have hx3 := hx2.2
      cases ht : alookup s.objs pi.target with
      | none => rw [ht] at hx3; simp at hx3
      | some td =>
        rw [ht] at hx3
        simp only [beq_iff_eq] at hx3
        exact ⟨td, rfl, hx3⟩
    · intro k p hm
      have hx := h2 (k, p) hm
      simp only [Bool.and_eq_true] at hx
      obtain ⟨hxa, hxb⟩ := hx
      constructor
      · cases ht : alookup s.objs p with
        | none => rw [ht] at hxa; simp at hxa
        | some dp =>
          rw [ht] at hxa
          simp only [beq_iff_eq] at hxa
          exact ⟨dp, rfl, hxa⟩
      · cases ht : alookup s.objs k with
        | none => rw [ht] at hxb; simp at hxb
        | some dk =>
          rw [ht] at hxb
          simp only [beq_iff_eq] at hxb
          exact ⟨dk, rfl, hxb⟩
    · intro k p hm
      have hx := h3 (k, p) hm
      cases ht : alookup s.objs p with
      | none => rw [ht] at hx; simp at hx
      | some dp =>
        rw [ht] at hx
        simp only [beq_iff_eq] at hx
        exact ⟨dp, rfl, hx⟩
  · rintro ⟨h1, h2, h3⟩
    refine ⟨⟨?_, ?_⟩, ?_⟩
    · intro x hm
      obtain ⟨xa, xd⟩ := x
      obtain ⟨hlt, hpi⟩ := h1 xa xd hm
      simp only [Bool.and_eq_true, decide_eq_true_eq]
      refine ⟨hlt, ?_⟩
      cases hp : xd.proxyInfo with
      | none => simp
      | some pi =>
        obtain ⟨htl, td, htd, hto⟩ := hpi pi hp
        simp only [Bool.and_eq_true, decide_eq_true_eq]
        exact ⟨htl, by rw [htd]; simp [hto]⟩
    · intro x hm
      obtain ⟨k, p⟩ := x
      obtain ⟨⟨dp, hdp, hdpi⟩, dk, hdk, hdki⟩ := h2 k p hm
      simp only [Bool.and_eq_true]
      exact ⟨by rw [hdp]; simp [hdpi], by rw [hdk]; simp [hdki]⟩
    · intro x hm
      obtain ⟨k, p⟩ := x
      obtain ⟨dp, hdp, hdpi⟩ := h3 k p hm
      rw [hdp]
      simp [hdpi]

/-- The state after `createReactiveObject` allocates a fresh proxy over
the object at `a` (whose heap entry is `d`) with the given flavor. -/
def addProxy (s : RState) (a : Nat) (d : ObjData) (isRo : Bool) : RState :=
  { s with
    nextAddr := s.nextAddr + 1
    objs := (s.nextAddr,
      { otype := d.otype, extensible := d.extensible, skipFlag := false,
        isReadonlyOwn := false, isShallowOwn := false,
        proxyInfo := some ⟨a, isRo⟩, entries := [] }) :: s.objs
    reactiveMap :=
      if isRo then s.reactiveMap else (a, s.nextAddr) :: s.reactiveMap
    readonlyMap :=
      if isRo then (a, s.nextAddr) :: s.readonlyMap else s.readonlyMap }

theorem addProxy_objs_old {s : RState} {a x : Nat} {d dx : ObjData} {isRo : Bool}
    (hw : rwfB s = true) (hx : alookup s.objs x = some dx) :
    alookup (addProxy s a d isRo).objs x = some dx := by
  have hlt : x < s.nextAddr := rwf_addrLt hw hx
  show alookup ((s.nextAddr, _) :: s.objs) x = some dx
  rw [alookup_cons_ne _ _ _ _ (by omega)]
  exact hx

theorem addProxy_objs_new (s : RState) (a : Nat) (d : ObjData) (isRo : Bool) :
    alookup (addProxy s a d isRo).objs s.nextAddr =
      some { otype := d.otype, extensible := d.extensible, skipFlag := false,
             isReadonlyOwn := false, isShallowOwn := false,
             proxyInfo := some ⟨a, isRo⟩, entries := [] } :=
  alookup_cons_self _ _ _

theorem rwfB_addProxy {s : RState} {a : Nat} {d : ObjData} {isRo : Bool}
    (hw : rwfB s = true) (hlk : alookup s.objs a = some d)
    (hok : isRo = false → d.proxyInfo = none) :
    rwfB (addProxy s a d isRo) = true := by
  obtain ⟨h1, h2, h3⟩ := (rwfB_iff s).mp hw
  have ha : a < s.nextAddr := rwf_addrLt hw hlk
  have hpres : ∀ x (dx : ObjData), alookup s.objs x = some dx →
      alookup (addProxy s a d isRo).objs x = some dx := by
    intro x dx hx
    exact addProxy_objs_old hw hx
  have hnewlk := addProxy_objs_new s a d isRo
  rw [rwfB_iff]
  refine ⟨?_, ?_, ?_⟩
  · intro x dx hm
    have hm' := List.mem_cons.mp hm
    rcases hm' with heq | hold
    · rw [Prod.mk.injEq] at heq
      obtain ⟨hx, hd⟩ := heq
      subst hx
      subst hd
      refine ⟨by simp [addProxy], ?_⟩
      intro pi hpi
      simp only [Option.some.injEq] at hpi
      subst hpi
      refine ⟨ha, d, hpres a d hlk, rfl⟩
    · obtain ⟨hlt, hp⟩ := h1 x dx hold
      refine ⟨by simp [addProxy]; omega, ?_⟩
      intro pi hpi
      obtain ⟨htl, td, htd, hto⟩ := hp pi hpi
      exact ⟨htl, td, hpres _ _ htd, hto⟩
  · intro k p hm
    cases hro : isRo with
    | true =>
      subst hro
      simp only [addProxy, if_pos] at hm
      obtain ⟨⟨dp, hdp, hdpi⟩, dk, hdk, hdki⟩ := h2 k p hm
      exact ⟨⟨dp, hpres _ _ hdp, hdpi⟩, dk, hpres _ _ hdk, hdki⟩
    | false =>
      subst hro
      simp only [addProxy, if_neg] at hm
      rcases List.mem_cons.mp hm with heq | hold
      · rw [Prod.mk.injEq] at heq
        obtain ⟨hk, hp⟩ := heq
        subst hk
        subst hp
        refine ⟨⟨_, hnewlk, rfl⟩, d, hpres _ _ hlk, hok rfl⟩
      · obtain ⟨⟨dp, hdp, hdpi⟩, dk, hdk, hdki⟩ := h2 k p hold
        exact ⟨⟨dp, hpres _ _ hdp, hdpi⟩, dk, hpres _ _ hdk, hdki⟩
  · intro k p hm
    cases hro : isRo with
    | true =>
      subst hro
      simp only [addProxy, if_pos] at hm
      rcases List.mem_cons.mp hm with heq | hold
      · rw [Prod.mk.injEq] at heq
        obtain ⟨hk, hp⟩ := heq
        subst hk
        subst hp
        exact ⟨_, hnewlk, rfl⟩
      · obtain ⟨dp, hdp, hdpi⟩ := h3 k p hold
        exact ⟨dp, hpres _ _ hdp, hdpi⟩
    | false =>
      subst hro
      simp only [addProxy, if_neg] at hm
      obtain ⟨dp, hdp, hdpi⟩ := h3 k p hm
      exact ⟨dp, hpres _ _ hdp, hdpi⟩

theorem acceptedRaw_iff (s : RState) (a : Nat) :
    acceptedRawB s a = true ↔ ∃ d, alookup s.objs a = some d ∧
      d.proxyInfo = none ∧ d.skipFlag = false ∧ d.extensible = true ∧
      targetTypeMap d.otype ≠ .invalid ∧ d.isReadonlyOwn = false := by
  unfold acceptedRawB
  cases h : alookup s.objs a with
  | none => simp
  | some d =>
    simp only [Bool.and_eq_true, beq_iff_eq, Option.some.injEq,
      Bool.not_eq_true', beq_eq_false_iff_ne, ne_eq]
    constructor
    · rintro ⟨⟨⟨⟨h1, h2⟩, h3⟩, h4⟩, h5⟩
      exact ⟨d, rfl, h1, h2, h3, h4, h5⟩
    · rintro ⟨d', hd', h1, h2, h3, h4, h5⟩
      cases hd'
      exact ⟨⟨⟨⟨h1, h2⟩, h3⟩, h4⟩, h5⟩

theorem getTargetType_raw_ok {s : RState} {a : Nat} {d : ObjData}
    (hlk : alookup s.objs a = some d) (hraw : d.proxyInfo = none)
    (hskip : d.skipFlag = false) (hext : d.extensible = true)
    (ha : a < s.nextAddr) :
    getTargetType s a = targetTypeMap d.otype := by
  obtain ⟨n, hn⟩ : ∃ n, s.nextAddr = n + 1 := ⟨s.nextAddr - 1, by omega⟩
  unfold getTargetType
  rw [hn, readSkipF_raw hlk hraw n, isExtensibleF_raw hlk hraw n,
    rawTypeF_raw hlk hraw n, hskip, hext]
  simp

theorem getTargetType_proxy1_ok {s : RState} {p a : Nat} {dp d : ObjData}
    {b : Bool}
    (hdp : alookup s.objs p = some dp) (hdpi : dp.proxyInfo = some ⟨a, b⟩)
    (hda : alookup s.objs a = some d) (hraw : d.proxyInfo = none)
    (hskip : d.skipFlag = false) (hext : d.extensible = true)
    (hplt : p < s.nextAddr) (hap : a < p) :
    getTargetType s p = targetTypeMap d.otype := by
  obtain ⟨n, hn⟩ : ∃ n, s.nextAddr = n + 2 := ⟨s.nextAddr - 2, by omega⟩
  unfold getTargetType
  rw [hn, readSkipF_proxy1 hdp hdpi hda hraw n,
    isExtensibleF_proxy1 hdp hdpi hda hraw n,
    rawTypeF_proxy1 hdp hdpi hda hraw n, hskip, hext]
  simp

theorem createReactiveObject_checks {s : RState} {a : Nat} {d : ObjData}
    {isRo : Bool}
    (hlk : alookup s.objs a = some d) (hfl : ¬ d.otype = .funcLike)
    (hpraw : d.proxyInfo = none) (hg : ¬ getTargetType s a = .invalid) :
    createReactiveObject s (.obj a) isRo =
      (match alookup (if isRo then s.readonlyMap else s.reactiveMap) a with
       | some p => (s, .obj p)
       | none => (addProxy s a d isRo, .obj s.nextAddr)) := by
  simp only [createReactiveObject, hlk]
  rw [if_neg (by simp [hfl])]
  rw [if_neg (by simp [readRawIsSome, hlk, hpraw])]
  rw [if_neg (by simp [hg])]
  cases hc : alookup (if isRo then s.readonlyMap else s.reactiveMap) a with
  | some p => simp
  | none => simp [addProxy]

theorem createReactiveObject_roProxy_checks {s : RState} {p a : Nat}
    {dp d : ObjData}
    (hdp : alookup s.objs p = some dp) (hdpi : dp.proxyInfo = some ⟨a, false⟩)
    (hdpo : dp.otype = d.otype) (hfl : ¬ d.otype = .funcLike)
    (hg : ¬ getTargetType s p = .invalid) :
    createReactiveObject s (.obj p) true =
      (match alookup s.readonlyMap p with
       | some q => (s, .obj q)
       | none => (addProxy s p dp true, .obj s.nextAddr)) := by
  simp only [createReactiveObject, hdp]
  rw [if_neg (by simp [hdpo, hfl])]
  rw [if_neg (by simp [readRawIsSome, readIsReactive, hdp, hdpi])]
  rw [if_neg (by simp [hg])]
  simp only [if_true]
  cases hc : alookup s.readonlyMap p with
  | some q => rfl
  | none => simp [addProxy]

theorem reactive_accepted {s : RState} {a : Nat}
    (hw : rwfB s = true) (hacc : acceptedRawB s a = true) :
    ∃ (s1 : RState) (p : Nat) (dp d : ObjData),
      reactive s (.obj a) = (s1, .obj p)
      ∧ alookup s1.objs p = some dp
      ∧ dp.proxyInfo = some ⟨a, false⟩
      ∧ dp.otype = d.otype
      ∧ alookup s1.objs a = some d
      ∧ d.proxyInfo = none ∧ d.skipFlag = false ∧ d.extensible = true
      ∧ targetTypeMap d.otype ≠ .invalid ∧ d.isReadonlyOwn = false
      ∧ a < p ∧ p < s1.nextAddr
      ∧ alookup s1.reactiveMap a = some p
      ∧ rwfB s1 = true := by
  obtain ⟨d, hlk, hpraw, hskip, hext, htype, hro⟩ := (acceptedRaw_iff s a).mp hacc
  have ha : a < s.nextAddr := rwf_addrLt hw hlk
  have hg : getTargetType s a = targetTypeMap d.otype :=
    getTargetType_raw_ok hlk hpraw hskip hext ha
  have hginv : ¬ getTargetType s a = .invalid := by rw [hg]; exact htype
  have hfl : ¬ d.otype = .funcLike := fun h => htype (by rw [h]; rfl)
  have hnotro : isReadonly s (.obj a) = false := by
    simp [isReadonly, hlk, hpraw, hro]
  have hstep : reactive s (.obj a) = createReactiveObject s (.obj a) false := by
    simp [reactive, hnotro]
  rw [createReactiveObject_checks hlk hfl hpraw hginv] at hstep
  cases hcache : alookup s.reactiveMap a with
  | some p =>
    rw [if_neg (by simp)] at hstep
    rw [hcache] at hstep
    obtain ⟨dp, dk, hdp, hdpi, hdk, hdkraw⟩ := rwf_reactiveMap hw hcache
    have hap : a < p := by
      have ht := rwf_targetLt hw hdp hdpi
      simpa using ht
    obtain ⟨td, htd, hto⟩ := rwf_proxyOtype hw hdp hdpi
    have htd' : td = d := by
      rw [hlk] at htd
      exact (Option.some.inj htd).symm
    refine ⟨s, p, dp, d, hstep, hdp, hdpi, ?_, hlk, hpraw, hskip, hext, htype,
      hro, hap, rwf_addrLt hw hdp, hcache, hw⟩
    rw [hto, htd']
  | none =>
    rw [if_neg (by simp)] at hstep
    rw [hcache] at hstep
    have hnew := addProxy_objs_new s a d false
    have holda : alookup (addProxy s a d false).objs a = some d :=
      addProxy_objs_old hw hlk
    have hwf1 : rwfB (addProxy s a d false) = true :=
      rwfB_addProxy hw hlk (fun _ => hpraw)
    refine ⟨addProxy s a d false, s.nextAddr, _, d, hstep, hnew, rfl, rfl,
      holda, hpraw, hskip, hext, htype, hro, ha, ?_, ?_, hwf1⟩
    · show s.nextAddr < (addProxy s a d false).nextAddr
      simp [addProxy]
    · show alookup (addProxy s a d false).reactiveMap a = some s.nextAddr
      simp [addProxy, alookup]

/-- Claim C1: for every accepted object `o` (raw, plain Object/Array/Map/
Set/WeakMap/WeakSet runtime type, extensible, not flagged skip),
`toRaw (reactive o) = o`, two calls of `reactive` on `o` return the same
proxy and the same state, and the proxy is cached in `reactiveMap` under
the key `o`. -/
theorem claim_C1 (s : RState) (a : Nat) (hw : rwfB s = true)
    (hacc : acceptedRawB s a = true) :
    (reactive (reactive s (.obj a)).1 (.obj a)).2 = (reactive s (.obj a)).2
    ∧ (reactive (reactive s (.obj a)).1 (.obj a)).1 = (reactive s (.obj a)).1
    ∧ toRaw (reactive s (.obj a)).1 (reactive s (.obj a)).2 = .obj a
    ∧ ∃ p, (reactive s (.obj a)).2 = .obj p ∧
        alookup (reactive s (.obj a)).1.reactiveMap a = some p := by
  obtain ⟨s1, p, dp, d, hre, hdp, hdpi, hdpo, hda, hpraw, hskip, hext, htype,
    hro, hap, hplt, hcache1, hwf1⟩ := reactive_accepted hw hacc
  have halt : a < s1.nextAddr := by omega
  have hfl : ¬ d.otype = .funcLike := fun h => htype (by rw [h]; rfl)
  have hg1 : getTargetType s1 a = targetTypeMap d.otype :=
    getTargetType_raw_ok hda hpraw hskip hext halt
  have hnotro1 : isReadonly s1 (.obj a) = false := by
    simp [isReadonly, hda, hpraw, hro]
  have hstep : reactive s1 (.obj a) = createReactiveObject s1 (.obj a) false := by
    simp [reactive, hnotro1]
  rw [createReactiveObject_checks hda hfl hpraw (by rw [hg1]; exact htype)]
    at hstep
  rw [if_neg (by simp)] at hstep
  rw [hcache1] at hstep
  have hre2 : reactive s1 (.obj a) = (s1, .obj p) := by rw [hstep]
  rw [hre]
  refine ⟨?_, ?_, ?_, p, rfl, hcache1⟩
  · show (reactive s1 (.obj a)).2 = JSVal.obj p
    rw [hre2]
  · show (reactive s1 (.obj a)).1 = s1
    rw [hre2]
  · show toRaw s1 (.obj p) = .obj a
    exact toRaw_proxy1 hdp hdpi hda hpraw hplt

def sC1w : RState :=
  { nextAddr := 1, objs := [(0, rawPlainData)], reactiveMap := [],
    readonlyMap := [], events := [] }

theorem claim_C1_witness :
    rwfB sC1w = true ∧ acceptedRawB sC1w 0 = true ∧
      ((reactive (reactive sC1w (.obj 0)).1 (.obj 0)).2 =
          (reactive sC1w (.obj 0)).2
        ∧ (reactive (reactive sC1w (.obj 0)).1 (.obj 0)).1 =
            (reactive sC1w (.obj 0)).1
        ∧ toRaw (reactive sC1w (.obj 0)).1 (reactive sC1w (.obj 0)).2 = .obj 0
        ∧ ∃ p, (reactive sC1w (.obj 0)).2 = .obj p ∧
            alookup (reactive sC1w (.obj 0)).1.reactiveMap 0 = some p) :=
  ⟨by decide, by decide, claim_C1 sC1w 0 (by decide) (by decide)⟩

/-- Claim C2: for every accepted object `o`, `readonly (reactive o)` is a
proxy distinct from `reactive o`, and both unwrap by `toRaw` to the same
raw object `o`. -/
theorem claim_C2 (s : RState) (a : Nat) (hw : rwfB s = true)
    (hacc : acceptedRawB s a = true) :
    (readonly (reactive s (.obj a)).1 (reactive s (.obj a)).2).2 ≠
        (reactive s (.obj a)).2
    ∧ toRaw (readonly (reactive s (.obj a)).1 (reactive s (.obj a)).2).1
        (readonly (reactive s (.obj a)).1 (reactive s (.obj a)).2).2 = .obj a
    ∧ toRaw (readonly (reactive s (.obj a)).1 (reactive s (.obj a)).2).1
        (reactive s (.obj a)).2 = .obj a := by
  obtain ⟨s1, p, dp, d, hre, hdp, hdpi, hdpo, hda, hpraw, hskip, hext, htype,
    hro, hap, hplt, hcache1, hwf1⟩ := reactive_accepted hw hacc
  rw [hre]
  have hfl : ¬ d.otype = .funcLike := fun h => htype (by rw [h]; rfl)
  have hg1 : getTargetType s1 p = targetTypeMap d.otype :=
    getTargetType_proxy1_ok hdp hdpi hda hpraw hskip hext hplt hap
  have hstep : readonly s1 (.obj p) =
      (match alookup s1.readonlyMap p with
       | some q => (s1, .obj q)
       | none => (addProxy s1 p dp true, .obj s1.nextAddr)) := by
    unfold readonly
    exact createReactiveObject_roProxy_checks hdp hdpi hdpo hfl
      (by rw [hg1]; exact htype)
  cases hcq : alookup s1.readonlyMap p with
  | some q =>
    rw [hcq] at hstep
    have hre2 : readonly s1 (.obj p) = (s1, .obj q) := by rw [hstep]
    obtain ⟨dq, hdq, hdqi⟩ := rwf_readonlyMap hwf1 hcq
    have hqp : q ≠ p := by
      intro he
      rw [he, hdp] at hdq
      have hdd : dp = dq := Option.some.inj hdq
      rw [← hdd] at hdqi
      rw [hdpi] at hdqi
      have := (ProxyInfo.mk.injEq .. ▸ Option.some.inj hdqi).2
      exact absurd this (by simp)
    rw [hre2]
    refine ⟨?_, ?_, ?_⟩
    · show JSVal.obj q ≠ JSVal.obj p
      simp only [ne_eq, JSVal.obj.injEq]
      exact hqp
    · show toRaw s1 (.obj q) = .obj a
      exact toRaw_proxy2 hdq hdqi hdp hdpi hda hpraw (rwf_addrLt hwf1 hdq)
        hplt hqp
    · exact toRaw_proxy1 hdp hdpi hda hpraw hplt
  | none =>
    rw [hcq] at hstep
    have hre2 : readonly s1 (.obj p) =
        (addProxy s1 p dp true, .obj s1.nextAddr) := by rw [hstep]
    rw [hre2]
    have hqp : s1.nextAddr ≠ p := by omega
    have hq2 := addProxy_objs_new s1 p dp true
    have hdp2 : alookup (addProxy s1 p dp true).objs p = some dp :=
      addProxy_objs_old hwf1 hdp
    have hda2 : alookup (addProxy s1 p dp true).objs a = some d :=
      addProxy_objs_old hwf1 hda
    have hs2n : (addProxy s1 p dp true).nextAddr = s1.nextAddr + 1 := rfl
    refine ⟨?_, ?_, ?_⟩
    · show JSVal.obj s1.nextAddr ≠ JSVal.obj p
      simp only [ne_eq, JSVal.obj.injEq]
      exact hqp
    · show toRaw (addProxy s1 p dp true) (.obj s1.nextAddr) = .obj a
      exact toRaw_proxy2 hq2 rfl hdp2 hdpi hda2 hpraw (by omega) (by omega) hqp
    · show toRaw (addProxy s1 p dp true) (.obj p) = .obj a
      exact toRaw_proxy1 hdp2 hdpi hda2 hpraw (by omega)

def sC2w : RState :=
  { nextAddr := 1, objs := [(0, rawPlainData)], reactiveMap := [],
    readonlyMap := [], events := [] }

theorem claim_C2_witness :
    rwfB sC2w = true ∧ acceptedRawB sC2w 0 = true ∧
      ((readonly (reactive sC2w (.obj 0)).1 (reactive sC2w (.obj 0)).2).2 ≠
          (reactive sC2w (.obj 0)).2
        ∧ toRaw (readonly (reactive sC2w (.obj 0)).1
              (reactive sC2w (.obj 0)).2).1
            (readonly (reactive sC2w (.obj 0)).1
              (reactive sC2w (.obj 0)).2).2 = .obj 0
        ∧ toRaw (readonly (reactive sC2w (.obj 0)).1
              (reactive sC2w (.obj 0)).2).1
            (reactive sC2w (.obj 0)).2 = .obj 0) :=
  ⟨by decide, by decide, claim_C2 sC2w 0 (by decide) (by decide)⟩

/-- Presence test of a JavaScript Map/Set: SameValueZero over stored keys. -/
def mapEntriesHas (es : List (JSVal × JSVal)) (k : JSVal) : Bool :=
  es.any (fun e => sameValueZero e.1 k)

/-- JavaScript `Map.prototype.get`: value of the first (unique) entry whose
key is SameValueZero-equal, `undefined` otherwise. -/
def mapEntriesGet (es : List (JSVal × JSVal)) (k : JSVal) : JSVal :=
  match es.find? (fun e => sameValueZero e.1 k) with
  | some e => e.2
  | none => .prim .undefV

/-- JavaScript Map/Set key normalization on insertion: a `-0` key is
converted to `+0`. -/
def normalizeMapKey (k : JSVal) : JSVal :=
  if k = .prim .negZero then .prim (.intV 0) else k

/-- JavaScript `Map.prototype.set`: replace the value of the existing entry
(keeping the stored key) or append a new entry with a normalized key. -/
def mapEntriesSet : List (JSVal × JSVal) → JSVal → JSVal → List (JSVal × JSVal)
  | [], k, v => [(normalizeMapKey k, v)]
  | e :: rest, k, v =>
    if sameValueZero e.1 k then (e.1, v) :: rest
    else e :: mapEntriesSet rest k v

/-- JavaScript `Map.prototype.delete` / `Set.prototype.delete`: remove the
entry with a SameValueZero-equal key, if any. -/
def entriesDelete : List (JSVal × JSVal) → JSVal → List (JSVal × JSVal)
  | [], _ => []
  | e :: rest, k =>
    if sameValueZero e.1 k then rest else e :: entriesDelete rest k

/-- Replace the entries of the collection at `ta` by `f` of them. -/
def updEntries (s : RState) (ta : Nat)
    (f : List (JSVal × JSVal) → List (JSVal × JSVal)) : RState :=
  { s with objs := aupdate s.objs ta (fun d => { d with entries := f d.entries }) }

/-- dep.ts is not in the source tree.  Modelled from the spec: `trigger`
appends an event; the snapshot field records the target's entries at the
moment of the trigger, which is what notified subscribers observe. -/
def emitTrig (s : RState) (ta : Nat) (ty : TriggerOpTypes)
    (key newValue : Option JSVal) : RState :=
  { s with events := s.events ++
      [{ target := ta, type := ty, key := key, newValue := newValue,
         snapshot := entriesOf s ta }] }

/-- collectionHandlers.ts `set` instrumentation (lines 171-192): unwrap the
value to raw unless shallow or the value is a shallow or readonly proxy,
resolve the raw target via `toRaw(this)`, retry a missing key under its
raw form, write to the raw target, then trigger ADD for a new key or SET
when the value changed (`hasChanged`), and return `this`. -/
def instSet (s : RState) (thisAddr : Nat) (key value : JSVal)
    (shallow : Bool) : RState × JSVal :=
  let value1 :=
    if ! shallow && ! isShallow s value && ! isReadonly s value then
      toRaw s value
    else value
  match toRaw s (.obj thisAddr) with
  | .obj ta =>
    let es := entriesOf s ta
    let hadKey := mapEntriesHas es key
    let key1 := if hadKey then key else toRaw s key
    let hadKey1 := if hadKey then true else mapEntriesHas es key1
    let oldValue := mapEntriesGet es key1
    let s1 := updEntries s ta (fun e => mapEntriesSet e key1 value1)
    let s2 :=
      if ! hadKey1 then emitTrig s1 ta .add (some key1) (some value1)
      else if hasChanged value1 oldValue then
        emitTrig s1 ta .set (some key1) (some value1)
      else s1
    (s2, .obj thisAddr)
  | _ => (s, .obj thisAddr)

/-- collectionHandlers.ts `delete` instrumentation (lines 193-208): retry a
missing key under its raw form, forward the deletion to the raw target
before triggering, trigger DELETE only when the key existed, and return
the underlying target's deletion result. -/
def instDelete (s : RState) (thisAddr : Nat) (key : JSVal) : RState × Bool :=
  match toRaw s (.obj thisAddr) with
  | .obj ta =>
    let es := entriesOf s ta
    let hadKey := mapEntriesHas es key
    let key1 := if hadKey then key else toRaw s key
    let hadKey1 := if hadKey then true else mapEntriesHas es key1
    let result := mapEntriesHas es key1
    let s1 := updEntries s ta (fun e => entriesDelete e key1)
    let s2 := if hadKey1 then emitTrig s1 ta .delete (some key1) none else s1
    (s2, result)
  | _ => (s, false)

/-- collectionHandlers.ts `clear` instrumentation (lines 209-223): record
whether the raw target had items, forward the clear before triggering,
trigger CLEAR only when the size was non-zero, and return
`target.clear()`, which is `undefined`. -/
def instClear (s : RState) (thisAddr : Nat) : RState × JSVal :=
  match toRaw s (.obj thisAddr) with
  | .obj ta =>
    let hadItems := ! (entriesOf s ta).isEmpty
    let s1 := updEntries s ta (fun _ => [])
    let s2 := if hadItems then emitTrig s1 ta .clear none none else s1
    (s2, .prim .undefV)
  | _ => (s, .prim .undefV)

/-- collectionHandlers.ts `createReadonlyMethod` (lines 73-81): a no-op
returning `false` for DELETE, `undefined` for CLEAR, and `this` for the
other op types. -/
def createReadonlyMethod (ty : TriggerOpTypes) (s : RState) (thisV : JSVal)
    (_args : List JSVal) : RState × JSVal :=
  (s,
    if ty = .delete then .prim (.boolV false)
    else if ty = .clear then .prim .undefV
    else thisV)

/-- The readonly `add` method installed by `createInstrumentations`
(line 152). -/
def readonlyAdd (s : RState) (thisV v : JSVal) : RState × JSVal :=
  createReadonlyMethod .add s thisV [v]

/-- The readonly `set` method installed by `createInstrumentations`
(line 153). -/
def readonlySet (s : RState) (thisV k v : JSVal) : RState × JSVal :=
  createReadonlyMethod .set s thisV [k, v]

/-- The readonly `delete` method installed by `createInstrumentations`
(line 154). -/
def readonlyDelete (s : RState) (thisV k : JSVal) : RState × JSVal :=
  createReadonlyMethod .delete s thisV [k]

/-- The readonly `clear` method installed by `createInstrumentations`
(line 155). -/
def readonlyClear (s : RState) (thisV : JSVal) : RState × JSVal :=
  createReadonlyMethod .clear s thisV []

/-- Claim C8: on a readonly collection proxy every mutating method
performs no mutation and fires no trigger (the state is returned
untouched), and returns its contractual sentinel: `this` for add and set,
`false` for delete, `undefined` for clear. -/
theorem claim_C8 (s : RState) (thisV k v : JSVal) :
    readonlyAdd s thisV v = (s, thisV)
    ∧ readonlySet s thisV k v = (s, thisV)
    ∧ readonlyDelete s thisV k = (s, .prim (.boolV false))
    ∧ readonlyClear s thisV = (s, .prim .undefV) :=
  ⟨rfl, rfl, rfl, rfl⟩

/-- The value actually stored by the `set` instrumentation: unwrapped to
raw unless the handler is shallow or the value is a shallow or readonly
proxy. -/
def setValue1 (s : RState) (shallow : Bool) (v : JSVal) : JSVal :=
  if ! shallow && ! isShallow s v && ! isReadonly s v then toRaw s v else v

/-- The key the `set`/`delete` instrumentations end up operating with: the
given key if present, otherwise its raw form. -/
def setKey1 (s : RState) (es : List (JSVal × JSVal)) (k : JSVal) : JSVal :=
  if mapEntriesHas es k then k else toRaw s k

/-- Whether the `set`/`delete` instrumentations consider the key present:
either the given key or its raw form is in the target. -/
def setHad (s : RState) (es : List (JSVal × JSVal)) (k : JSVal) : Bool :=
  mapEntriesHas es k || mapEntriesHas es (toRaw s k)

/-- The trigger events emitted by one `set` instrumentation call on a
non-shallow reactive Map whose raw entries are `es`. -/
def setNewEvents (s : RState) (ta : Nat) (es : List (JSVal × JSVal))
    (k v : JSVal) : List REvent :=
  if ! setHad s es k then
    [⟨ta, .add, some (setKey1 s es k), some (setValue1 s false v),
      mapEntriesSet es (setKey1 s es k) (setValue1 s false v)⟩]
  else if hasChanged (setValue1 s false v) (mapEntriesGet es (setKey1 s es k)) then
    [⟨ta, .set, some (setKey1 s es k), some (setValue1 s false v),
      mapEntriesSet es (setKey1 s es k) (setValue1 s false v)⟩]
  else []

theorem entriesOf_updEntries {s : RState} {ta : Nat} {dt : ObjData}
    (f : List (JSVal × JSVal) → List (JSVal × JSVal))
    (hdt : alookup s.objs ta = some dt) :
    entriesOf (updEntries s ta f) ta = f dt.entries := by
  simp [entriesOf, updEntries, alookup_aupdate_self, hdt]

theorem instSet_spec {s : RState} {pa ta : Nat} {dt : ObjData} (k v : JSVal)
    (htr : toRaw s (.obj pa) = .obj ta)
    (hdt : alookup s.objs ta = some dt) :
    instSet s pa k v false =
      ({ s with
          objs := (aupdate s.objs ta (fun d =>
            { d with entries := (mapEntriesSet d.entries
                (setKey1 s dt.entries k) (setValue1 s false v)) }))
          events := (s.events ++ setNewEvents s ta dt.entries k v) },
        .obj pa) := by
  have hes : entriesOf s ta = dt.entries := by simp [entriesOf, hdt]
  have hsnap : entriesOf
      (updEntries s ta (fun e =>
        mapEntriesSet e (setKey1 s dt.entries k) (setValue1 s false v))) ta =
      mapEntriesSet dt.entries (setKey1 s dt.entries k) (setValue1 s false v) :=
    entriesOf_updEntries _ hdt
  simp only [instSet, htr, hes]
  cases h1 : mapEntriesHas dt.entries k with
  | true =>
    cases h3 : hasChanged (setValue1 s false v) (mapEntriesGet dt.entries k) with
    | true =>
      simp [setValue1] at h3
      simp [h1, h3, setNewEvents, setHad, setKey1, setValue1, emitTrig,
        updEntries, hsnap, entriesOf, alookup_aupdate_self, hdt]
    | false =>
      simp [setValue1] at h3
      simp [h1, h3, setNewEvents, setHad, setKey1, setValue1, emitTrig,
        updEntries, hsnap, entriesOf, alookup_aupdate_self, hdt]
  | false =>
    cases h2 : mapEntriesHas dt.entries (toRaw s k) with
    | true =>
      cases h3 : hasChanged (setValue1 s false v)
          (mapEntriesGet dt.entries (toRaw s k)) with
      | true =>
        simp [setValue1] at h3
        simp [h1, h2, h3, setNewEvents, setHad, setKey1, setValue1, emitTrig,
          updEntries, hsnap, entriesOf, alookup_aupdate_self, hdt]
      | false =>
        simp [setValue1] at h3
        simp [h1, h2, h3, setNewEvents, setHad, setKey1, setValue1, emitTrig,
          updEntries, hsnap, entriesOf, alookup_aupdate_self, hdt]
    | false =>
      simp [h1, h2, setNewEvents, setHad, setKey1, setValue1, emitTrig,
        updEntries, hsnap, entriesOf, alookup_aupdate_self, hdt]

theorem setNewEvents_add_iff (s : RState) (ta : Nat)
    (es : List (JSVal × JSVal)) (k v : JSVal) :
    ((setNewEvents s ta es k v).any (fun e => e.type == .add) = true) ↔
      (mapEntriesHas es k = false ∧ mapEntriesHas es (toRaw s k) = false) := by
  cases h1 : mapEntriesHas es k with
  | true =>
    cases h3 : hasChanged (setValue1 s false v) (mapEntriesGet es k) with
    | true => simp [setNewEvents, setHad, setKey1, h1, h3]
    | false => simp [setNewEvents, setHad, setKey1, h1, h3]
  | false =>
    cases h2 : mapEntriesHas es (toRaw s k) with
    | true =>
      cases h3 : hasChanged (setValue1 s false v) (mapEntriesGet es (toRaw s k)) with
      | true => simp [setNewEvents, setHad, setKey1, h1, h2, h3]
      | false => simp [setNewEvents, setHad, setKey1, h1, h2, h3]
    | false => simp [setNewEvents, setHad, setKey1, h1, h2]

theorem setNewEvents_set_iff (s : RState) (ta : Nat)
    (es : List (JSVal × JSVal)) (k v : JSVal) :
    ((setNewEvents s ta es k v).any (fun e => e.type == .set) = true) ↔
      (setHad s es k = true ∧
        hasChanged (setValue1 s false v) (mapEntriesGet es (setKey1 s es k)) = true) := by
  cases h1 : mapEntriesHas es k with
  | true =>
    cases h3 : hasChanged (setValue1 s false v) (mapEntriesGet es k) with
    | true => simp [setNewEvents, setHad, setKey1, h1, h3]
    | false => simp [setNewEvents, setHad, setKey1, h1, h3]
  | false =>
    cases h2 : mapEntriesHas es (toRaw s k) with
    | true =>
      cases h3 : hasChanged (setValue1 s false v) (mapEntriesGet es (toRaw s k)) with
      | true => simp [setNewEvents, setHad, setKey1, h1, h2, h3]
      | false => simp [setNewEvents, setHad, setKey1, h1, h2, h3]
    | false => simp [setNewEvents, setHad, setKey1, h1, h2]

theorem setNewEvents_none_iff (s : RState) (ta : Nat)
    (es : List (JSVal × JSVal)) (k v : JSVal) :
    (setNewEvents s ta es k v = [] ↔
      (setHad s es k = true ∧
        hasChanged (setValue1 s false v) (mapEntriesGet es (setKey1 s es k)) = false)) := by
  cases h1 : mapEntriesHas es k with
  | true =>
    cases h3 : hasChanged (setValue1 s false v) (mapEntriesGet es k) with
    | true => simp [setNewEvents, setHad, setKey1, h1, h3]
    | false => simp [setNewEvents, setHad, setKey1, h1, h3]
  | false =>
    cases h2 : mapEntriesHas es (toRaw s k) with
    | true =>
      cases h3 : hasChanged (setValue1 s false v) (mapEntriesGet es (toRaw s k)) with
      | true => simp [setNewEvents, setHad, setKey1, h1, h2, h3]
      | false => simp [setNewEvents, setHad, setKey1, h1, h2, h3]
    | false => simp [setNewEvents, setHad, setKey1, h1, h2]

/-- Claim C3: on a non-shallow reactive Map proxy, the instrumented `set`
stores the value unwrapped to raw (unless it is a shallow or readonly
proxy) into the raw target, touching no other object, map or counter; it
emits an ADD trigger iff neither the key nor its raw form was present, a
SET trigger iff the key was present and the new value differs from the old
by SameValue (`hasChanged`), and no trigger at all when the key was
present and the stored value is SameValue-equal to the new value. -/
theorem claim_C3 (s : RState) (pa ta : Nat) (dp dt : ObjData) (k v : JSVal)
    (hdp : alookup s.objs pa = some dp) (hdpi : dp.proxyInfo = some ⟨ta, false⟩)
    (hdt : alookup s.objs ta = some dt) (htraw : dt.proxyInfo = none)
    (_hmap : dt.otype = .mapObj) (hplt : pa < s.nextAddr) :
    (instSet s pa k v false).2 = .obj pa
    ∧ entriesOf (instSet s pa k v false).1 ta =
        mapEntriesSet dt.entries (setKey1 s dt.entries k) (setValue1 s false v)
    ∧ (∀ b, b ≠ ta →
        alookup (instSet s pa k v false).1.objs b = alookup s.objs b)
    ∧ (instSet s pa k v false).1.nextAddr = s.nextAddr
    ∧ (instSet s pa k v false).1.reactiveMap = s.reactiveMap
    ∧ (instSet s pa k v false).1.readonlyMap = s.readonlyMap
    ∧ (instSet s pa k v false).1.events =
        s.events ++ setNewEvents s ta dt.entries k v
    ∧ ((setNewEvents s ta dt.entries k v).any (fun e => e.type == .add) = true ↔
        mapEntriesHas dt.entries k = false ∧
          mapEntriesHas dt.entries (toRaw s k) = false)
    ∧ ((setNewEvents s ta dt.entries k v).any (fun e => e.type == .set) = true ↔
        setHad s dt.entries k = true ∧
          hasChanged (setValue1 s false v)
            (mapEntriesGet dt.entries (setKey1 s dt.entries k)) = true)
    ∧ (setNewEvents s ta dt.entries k v = [] ↔
        setHad s dt.entries k = true ∧
          hasChanged (setValue1 s false v)
            (mapEntriesGet dt.entries (setKey1 s dt.entries k)) = false) := by
  have htr : toRaw s (.obj pa) = .obj ta := toRaw_proxy1 hdp hdpi hdt htraw hplt
  have hspec := instSet_spec k v htr hdt
  rw [hspec]
  refine ⟨rfl, ?_, ?_, rfl, rfl, rfl, rfl,
    setNewEvents_add_iff s ta dt.entries k v,
    setNewEvents_set_iff s ta dt.entries k v,
    setNewEvents_none_iff s ta dt.entries k v⟩
  · simp [entriesOf, alookup_aupdate_self, hdt]
  · intro b hb
    exact alookup_aupdate_ne _ _ _ _ hb

def rawMapData : ObjData :=
  { otype := .mapObj, extensible := true, skipFlag := false,
    isReadonlyOwn := false, isShallowOwn := false, proxyInfo := none,
    entries := [] }

def mapProxyData : ObjData :=
  { otype := .mapObj, extensible := true, skipFlag := false,
    isReadonlyOwn := false, isShallowOwn := false,
    proxyInfo := some ⟨0, false⟩, entries := [] }

def sC3w : RState :=
  { nextAddr := 2, objs := [(0, rawMapData), (1, mapProxyData)],
    reactiveMap := [(0, 1)], readonlyMap := [], events := [] }

theorem claim_C3_witness :
    (alookup sC3w.objs 1 = some mapProxyData
      ∧ mapProxyData.proxyInfo = some ⟨0, false⟩
      ∧ alookup sC3w.objs 0 = some rawMapData
      ∧ rawMapData.proxyInfo = none
      ∧ rawMapData.otype = .mapObj
      ∧ 1 < sC3w.nextAddr)
    ∧ ((instSet sC3w 1 (.prim (.strV "x")) (.prim (.intV 1)) false).2 = .obj 1
      ∧ entriesOf (instSet sC3w 1 (.prim (.strV "x")) (.prim (.intV 1)) false).1 0 =
          mapEntriesSet rawMapData.entries
            (setKey1 sC3w rawMapData.entries (.prim (.strV "x")))
            (setValue1 sC3w false (.prim (.intV 1)))
      ∧ (∀ b, b ≠ 0 →
          alookup (instSet sC3w 1 (.prim (.strV "x")) (.prim (.intV 1)) false).1.objs b =
            alookup sC3w.objs b)
      ∧ (instSet sC3w 1 (.prim (.strV "x")) (.prim (.intV 1)) false).1.nextAddr =
          sC3w.nextAddr
      ∧ (instSet sC3w 1 (.prim (.strV "x")) (.prim (.intV 1)) false).1.reactiveMap =
          sC3w.reactiveMap
      ∧ (instSet sC3w 1 (.prim (.strV "x")) (.prim (.intV 1)) false).1.readonlyMap =
          sC3w.readonlyMap
      ∧ (instSet sC3w 1 (.prim (.strV "x")) (.prim (.intV 1)) false).1.events =
          sC3w.events ++
            setNewEvents sC3w 0 rawMapData.entries (.prim (.strV "x"))
              (.prim (.intV 1))
      ∧ ((setNewEvents sC3w 0 rawMapData.entries (.prim (.strV "x"))
            (.prim (.intV 1))).any (fun e => e.type == .add) = true ↔
          mapEntriesHas rawMapData.entries (.prim (.strV "x")) = false ∧
            mapEntriesHas rawMapData.entries (toRaw sC3w (.prim (.strV "x"))) = false)
      ∧ ((setNewEvents sC3w 0 rawMapData.entries (.prim (.strV "x"))
            (.prim (.intV 1))).any (fun e => e.type == .set) = true ↔
          setHad sC3w rawMapData.entries (.prim (.strV "x")) = true ∧
            hasChanged (setValue1 sC3w false (.prim (.intV 1)))
              (mapEntriesGet rawMapData.entries
                (setKey1 sC3w rawMapData.entries (.prim (.strV "x")))) = true)
      ∧ (setNewEvents sC3w 0 rawMapData.entries (.prim (.strV "x"))
            (.prim (.intV 1)) = [] ↔
          setHad sC3w rawMapData.entries (.prim (.strV "x")) = true ∧
            hasChanged (setValue1 sC3w false (.prim (.intV 1)))
              (mapEntriesGet rawMapData.entries
                (setKey1 sC3w rawMapData.entries (.prim (.strV "x")))) = false)) :=
  ⟨⟨by decide, by decide, by decide, by decide, by decide, by decide⟩,
    claim_C3 sC3w 1 0 mapProxyData rawMapData (.prim (.strV "x"))
      (.prim (.intV 1)) (by decide) (by decide) (by decide) (by decide)
      (by decide) (by decide)⟩

/-- The trigger events emitted by one `delete` instrumentation call on a
reactive collection whose raw entries are `es`. -/
def delNewEvents (s : RState) (ta : Nat) (es : List (JSVal × JSVal))
    (k : JSVal) : List REvent :=
  if setHad s es k then
    [⟨ta, .delete, some (setKey1 s es k), none,
      entriesDelete es (setKey1 s es k)⟩]
  else []

/-- The trigger events emitted by one `clear` instrumentation call on a
reactive collection whose raw entries are `es`. -/
def clearNewEvents (ta : Nat) (es : List (JSVal × JSVal)) : List REvent :=
  if es.isEmpty then [] else [⟨ta, .clear, none, none, []⟩]

theorem setKey1_has (s : RState) (es : List (JSVal × JSVal)) (k : JSVal) :
    mapEntriesHas es (setKey1 s es k) = setHad s es k := by
  cases h1 : mapEntriesHas es k <;> simp [setKey1, setHad, h1]

theorem instDelete_spec {s : RState} {pa ta : Nat} {dt : ObjData} (k : JSVal)
    (htr : toRaw s (.obj pa) = .obj ta)
    (hdt : alookup s.objs ta = some dt) :
    instDelete s pa k =
      ({ s with
          objs := (aupdate s.objs ta (fun d =>
            { d with entries := (entriesDelete d.entries (setKey1 s dt.entries k)) }))
          events := (s.events ++ delNewEvents s ta dt.entries k) },
        mapEntriesHas dt.entries (setKey1 s dt.entries k)) := by
  have hes : entriesOf s ta = dt.entries := by simp [entriesOf, hdt]
  have hsnap : entriesOf
      (updEntries s ta (fun e => entriesDelete e (setKey1 s dt.entries k))) ta =
      entriesDelete dt.entries (setKey1 s dt.entries k) :=
    entriesOf_updEntries _ hdt
  simp only [instDelete, htr, hes]
  cases h1 : mapEntriesHas dt.entries k with
  | true =>
    simp [h1, delNewEvents, setHad, setKey1, emitTrig, updEntries, hsnap,
      entriesOf, alookup_aupdate_self, hdt]
  | false =>
    cases h2 : mapEntriesHas dt.entries (toRaw s k) with
    | true =>
      simp [h1, h2, delNewEvents, setHad, setKey1, emitTrig, updEntries,
        hsnap, entriesOf, alookup_aupdate_self, hdt]
    | false =>
      simp [h1, h2, delNewEvents, setHad, setKey1, emitTrig, updEntries,
        hsnap, entriesOf, alookup_aupdate_self, hdt]

theorem instClear_spec {s : RState} {pa ta : Nat} {dt : ObjData}
    (htr : toRaw s (.obj pa) = .obj ta)
    (hdt : alookup s.objs ta = some dt) :
    instClear s pa =
      ({ s with
          objs := (aupdate s.objs ta (fun d =>
            { d with entries := ([] : List (JSVal × JSVal)) }))
          events := (s.events ++ clearNewEvents ta dt.entries) },
        .prim .undefV) := by
  have hes : entriesOf s ta = dt.entries := by simp [entriesOf, hdt]
  have hsnap : entriesOf (updEntries s ta (fun _ => [])) ta =
      ([] : List (JSVal × JSVal)) := entriesOf_updEntries _ hdt
  simp only [instClear, htr, hes]
  cases h1 : dt.entries.isEmpty with
  | true =>
    simp [h1, clearNewEvents, emitTrig, updEntries, hsnap, entriesOf,
      alookup_aupdate_self, hdt]
  | false =>
    simp [h1, clearNewEvents, emitTrig, updEntries, hsnap, entriesOf,
      alookup_aupdate_self, hdt]

/-- Claim C4: on a reactive collection proxy, the instrumented `delete`
fires a DELETE trigger iff the key (under its given or raw form) was
present, and returns the underlying target's deletion result; the
instrumented `clear` fires a CLEAR trigger iff the collection was
non-empty and returns `undefined`; in both, the raw target is mutated
before the trigger, so the event snapshot observed by subscribers is the
post-state. -/
theorem claim_C4 (s : RState) (pa ta : Nat) (dp dt : ObjData) (k : JSVal)
    (hdp : alookup s.objs pa = some dp) (hdpi : dp.proxyInfo = some ⟨ta, false⟩)
    (hdt : alookup s.objs ta = some dt) (htraw : dt.proxyInfo = none)
    (_hcoll : targetTypeMap dt.otype = .collection) (hplt : pa < s.nextAddr) :
    (instDelete s pa k).2 = setHad s dt.entries k
    ∧ entriesOf (instDelete s pa k).1 ta =
        entriesDelete dt.entries (setKey1 s dt.entries k)
    ∧ (∀ b, b ≠ ta →
        alookup (instDelete s pa k).1.objs b = alookup s.objs b)
    ∧ (instDelete s pa k).1.events = s.events ++ delNewEvents s ta dt.entries k
    ∧ (delNewEvents s ta dt.entries k ≠ [] ↔ setHad s dt.entries k = true)
    ∧ (∀ e ∈ delNewEvents s ta dt.entries k, e.type = .delete ∧
        e.snapshot = entriesDelete dt.entries (setKey1 s dt.entries k))
    ∧ (instClear s pa).2 = .prim .undefV
    ∧ entriesOf (instClear s pa).1 ta = []
    ∧ (∀ b, b ≠ ta →
        alookup (instClear s pa).1.objs b = alookup s.objs b)
    ∧ (instClear s pa).1.events = s.events ++ clearNewEvents ta dt.entries
    ∧ (clearNewEvents ta dt.entries ≠ [] ↔ dt.entries.isEmpty = false)
    ∧ (∀ e ∈ clearNewEvents ta dt.entries, e.type = .clear ∧
        e.snapshot = []) := by
  have htr : toRaw s (.obj pa) = .obj ta := toRaw_proxy1 hdp hdpi hdt htraw hplt
  have hdel := instDelete_spec k htr hdt
  have hclr := instClear_spec htr hdt
  rw [hdel, hclr]
  refine ⟨setKey1_has s dt.entries k, ?_, ?_, rfl, ?_, ?_, rfl, ?_, ?_, rfl,
    ?_, ?_⟩
  · simp [entriesOf, alookup_aupdate_self, hdt]
  · intro b hb
    exact alookup_aupdate_ne _ _ _ _ hb
  · cases h : setHad s dt.entries k <;> simp [delNewEvents, h]
  · intro e he
    cases h : setHad s dt.entries k with
    | true =>
      simp [delNewEvents, h] at he
      simp [he]
    | false => simp [delNewEvents, h] at he
  · simp [entriesOf, alookup_aupdate_self, hdt]
  · intro b hb
    exact alookup_aupdate_ne _ _ _ _ hb
  · cases h : dt.entries.isEmpty <;> simp [clearNewEvents, h]
  · intro e he
    cases h : dt.entries.isEmpty with
    | true => simp [clearNewEvents, h] at he
    | false =>
      simp [clearNewEvents, h] at he
      simp [he]

def rawMapOneData : ObjData :=
  { otype := .mapObj, extensible := true, skipFlag := false,
    isReadonlyOwn := false, isShallowOwn := false, proxyInfo := none,
    entries := [(.prim (.strV "x"), .prim (.intV 1))] }

def sC4w : RState :=
  { nextAddr := 2, objs := [(0, rawMapOneData), (1, mapProxyData)],
    reactiveMap := [(0, 1)], readonlyMap := [], events := [] }

theorem claim_C4_witness :
    (alookup sC4w.objs 1 = some mapProxyData
      ∧ mapProxyData.proxyInfo = some ⟨0, false⟩
      ∧ alookup sC4w.objs 0 = some rawMapOneData
      ∧ rawMapOneData.proxyInfo = none
      ∧ targetTypeMap rawMapOneData.otype = .collection
      ∧ 1 < sC4w.nextAddr)
    ∧ ((instDelete sC4w 1 (.prim (.strV "x"))).2 =
          setHad sC4w rawMapOneData.entries (.prim (.strV "x"))
      ∧ entriesOf (instDelete sC4w 1 (.prim (.strV "x"))).1 0 =
          entriesDelete rawMapOneData.entries
            (setKey1 sC4w rawMapOneData.entries (.prim (.strV "x")))
      ∧ (∀ b, b ≠ 0 →
          alookup (instDelete sC4w 1 (.prim (.strV "x"))).1.objs b =
            alookup sC4w.objs b)
      ∧ (instDelete sC4w 1 (.prim (.strV "x"))).1.events =
          sC4w.events ++
            delNewEvents sC4w 0 rawMapOneData.entries (.prim (.strV "x"))
      ∧ (delNewEvents sC4w 0 rawMapOneData.entries (.prim (.strV "x")) ≠ [] ↔
          setHad sC4w rawMapOneData.entries (.prim (.strV "x")) = true)
      ∧ (∀ e ∈ delNewEvents sC4w 0 rawMapOneData.entries (.prim (.strV "x")),
          e.type = .delete ∧
            e.snapshot = entriesDelete rawMapOneData.entries
              (setKey1 sC4w rawMapOneData.entries (.prim (.strV "x"))))
      ∧ (instClear sC4w 1).2 = .prim .undefV
      ∧ entriesOf (instClear sC4w 1).1 0 = []
      ∧ (∀ b, b ≠ 0 →
          alookup (instClear sC4w 1).1.objs b = alookup sC4w.objs b)
      ∧ (instClear sC4w 1).1.events =
          sC4w.events ++ clearNewEvents 0 rawMapOneData.entries
      ∧ (clearNewEvents 0 rawMapOneData.entries ≠ [] ↔
          rawMapOneData.entries.isEmpty = false)
      ∧ (∀ e ∈ clearNewEvents 0 rawMapOneData.entries, e.type = .clear ∧
          e.snapshot = [])) :=
  ⟨⟨by decide, by decide, by decide, by decide, by decide, by decide⟩,
    claim_C4 sC4w 1 0 mapProxyData rawMapOneData (.prim (.strV "x"))
      (by decide) (by decide) (by decide) (by decide) (by decide) (by decide)⟩

/-- effect.ts is not in the source tree.  Modelled from the spec (section
4.3): a computed starts with the DIRTY flag set; the numeric value of the
bit is immaterial to the claims proved here. -/
def effectFlagsDirty : Nat := 16

/-- computed.ts `ComputedRefImpl`: getter, optional setter, cached
`_value` (initially undefined), its own dep, ref and readonly flags, the
subscriber link-list cursors, flags and the global-version snapshot.  The
world type `σ` stands for whatever state the user getter and setter act
on. -/
structure ComputedRefImpl (σ : Type) where
  fn : Option JSVal → σ → σ × JSVal
  setter : Option (JSVal → σ → σ)
  _value : Option JSVal
  dep : Nat
  isRefFlag : Bool
  isReadonlyFlag : Bool
  deps : Option Nat
  depsTail : Option Nat
  flags : Nat
  globalVersionSnap : Int

/-- computed.ts constructor (lines 60-65): field initializers plus
`this[ReactiveFlags.IS_READONLY] = !setter`; `gv` is the current global
version, snapshotted as `globalVersion - 1`. -/
def mkComputed {σ : Type} (fn : Option JSVal → σ → σ × JSVal)
    (setter : Option (JSVal → σ → σ)) (gv : Int) : ComputedRefImpl σ :=
  { fn := fn, setter := setter, _value := none, dep := 0, isRefFlag := true,
    isReadonlyFlag := setter.isNone, deps := none, depsTail := none,
    flags := effectFlagsDirty, globalVersionSnap := gv - 1 }

/-- computed.ts `set value` (lines 92-96): invoke the user-supplied setter
if present, otherwise do nothing. -/
def setComputedValue {σ : Type} (c : ComputedRefImpl σ) (newValue : JSVal)
    (w : σ) : ComputedRefImpl σ × σ :=
  match c.setter with
  | some f => (c, f newValue w)
  | none => (c, w)

/-- Claim C7: a computed constructed without a setter has its IS_READONLY
flag set; assigning `.value` on such a computed invokes no setter and
leaves the computed's whole state (cached `_value`, flags, dep, links) and
the world unchanged; on a computed constructed with a setter the
assignment invokes exactly that setter with the assigned value. -/
theorem claim_C7 {σ : Type} :
    (∀ (fn : Option JSVal → σ → σ × JSVal) (gv : Int),
      (mkComputed fn none gv).isReadonlyFlag = true)
    ∧ (∀ (c : ComputedRefImpl σ) (x : JSVal) (w : σ), c.setter = none →
        setComputedValue c x w = (c, w))
    ∧ (∀ (c : ComputedRefImpl σ) (f : JSVal → σ → σ) (x : JSVal) (w : σ),
        c.setter = some f → setComputedValue c x w = (c, f x w)) := by
  refine ⟨fun fn gv => rfl, ?_, ?_⟩
  · intro c x w h
    simp [setComputedValue, h]
  · intro c f x w h
    simp [setComputedValue, h]

def compNoSetter : ComputedRefImpl Nat :=
  mkComputed (fun _ w => (w, .prim .undefV)) none 0

def compWithSetter : ComputedRefImpl Nat :=
  mkComputed (fun _ w => (w, .prim .undefV)) (some fun _ w => w + 1) 0

theorem claim_C7_witness :
    compNoSetter.isReadonlyFlag = true
    ∧ (compNoSetter.setter = none ∧
        setComputedValue compNoSetter (.prim (.intV 5)) 0 = (compNoSetter, 0))
    ∧ (compWithSetter.setter = some (fun _ w => w + 1) ∧
        setComputedValue compWithSetter (.prim (.intV 5)) 0 =
          (compWithSetter, 1)) :=
  ⟨(claim_C7 (σ := Nat)).1 _ 0,
    ⟨rfl, (claim_C7 (σ := Nat)).2.1 compNoSetter (.prim (.intV 5)) 0 rfl⟩,
    ⟨rfl, (claim_C7 (σ := Nat)).2.2 compWithSetter (fun _ w => w + 1)
      (.prim (.intV 5)) 0 rfl⟩⟩

/-- Events observable during scope teardown: an owned effect being
stopped, or a registered cleanup callback being run. -/
inductive SEvent where
  | effStop (id : Nat)
  | cleanupRun (id : Nat)
deriving DecidableEq

/-- effectScope.ts `EffectScope` instance state: `_active`, the owned
effect list, the cleanup list, the parent pointer, the child scope list,
the recorded index in the parent's child list, and the `detached` flag. -/
structure ScopeData where
  active : Bool
  effects : List Nat
  cleanups : List Nat
  parent : Option Nat
  scopes : List Nat
  index : Option Nat
  detached : Bool
deriving DecidableEq

/-- The scope world: the scope store, the effect store (effect id to its
ACTIVE flag), the module-global `activeEffectScope`, and the trace of
observable teardown events. -/
structure SState where
  scopes : List (Nat × ScopeData)
  effectsStore : List (Nat × Bool)
  activeScope : Option Nat
  trace : List SEvent
deriving DecidableEq

def updScope (s : SState) (i : Nat) (f : ScopeData → ScopeData) : SState :=
  { s with scopes := aupdate s.scopes i f }

/-- effect.ts is not in the source tree.  Modelled from the spec (section
4.2): `ReactiveEffect.stop` is guarded by the ACTIVE flag; it clears
ACTIVE, detaches links and invokes the user onStop callback — recorded
here as one trace event.  Its removal from the owning scope's effect list
only happens while that scope is active, and the scope deactivates itself
before stopping its effects, so no list removal occurs in the calls
modelled here. -/
def effectStop (s : SState) (e : Nat) : SState :=
  match alookup s.effectsStore e with
  | some true =>
    { s with effectsStore := aupdate s.effectsStore e (fun _ => false),
             trace := s.trace ++ [.effStop e] }
  | _ => s

/-- effectScope.ts lines 148-155: `pop` the parent's child array; if the
popped scope is not this one, move it into this scope's recorded slot and
update its recorded index. -/
def popUnlink (s : SState) (sid : Nat) (d : ScopeData) : SState :=
  match d.parent with
  | none => s
  | some p =>
    match alookup s.scopes p with
    | none => s
    | some dp =>
      let s1 := updScope s p (fun q => { q with scopes := q.scopes.dropLast })
      match dp.scopes.getLast? with
      | none => s1
      | some last =>
        if last = sid then s1
        else
          match d.index with
          | some i =>
            updScope
              (updScope s1 p (fun q => { q with scopes := q.scopes.set i last }))
              last (fun q => { q with index := d.index })
          | none => s1

/-- effectScope.ts `EffectScope.stop` (lines 126-158), with explicit fuel
bounding the recursion depth into child scopes: if active, clear
`_active`, stop owned effects in insertion order and clear the list, run
cleanups in insertion order and clear the list, stop child scopes with
`fromParent = true` and clear the list, unlink from the parent (unless
detached, parentless, or called from the parent), and finally drop the
parent pointer.  The loops fold over the lists as read at entry, which
equals the live lists since none of the intermediate steps modifies
them. -/
def scopeStopF : Nat → SState → Nat → Bool → SState
  | 0, s, _, _ => s
  | fuel + 1, s, sid, fromParent =>
    match alookup s.scopes sid with
    | none => s
    | some d =>
      if d.active then
        let s1 := updScope s sid (fun q => { q with active := false })
        let s2 := d.effects.foldl effectStop s1
        let s3 := updScope s2 sid (fun q => { q with effects := [] })
        let s4 := d.cleanups.foldl
          (fun acc c => { acc with trace := acc.trace ++ [.cleanupRun c] }) s3
        let s5 := updScope s4 sid (fun q => { q with cleanups := [] })
        let s6 := d.scopes.foldl (fun acc c => scopeStopF fuel acc c true) s5
        let s7 := updScope s6 sid (fun q => { q with scopes := [] })
        let s8 :=
          match alookup s7.scopes sid with
          | some dl =>
            if ! dl.detached && dl.parent.isSome && ! fromParent then
              popUnlink s7 sid dl
            else s7
          | none => s7
        updScope s8 sid (fun q => { q with parent := none })
      else s

/-- effectScope.ts `EffectScope.run` (lines 91-101): if active, save the
current `activeEffectScope`, install this scope, run the function, restore
the saved scope on every exit (the `finally`), and propagate the result or
the thrown error; if inactive, return `undefined` without running the
function. -/
def scopeRun {ε α : Type} (s : SState) (sid : Nat)
    (fn : SState → SState × Except ε α) : SState × Except ε (Option α) :=
  match alookup s.scopes sid with
  | some d =>
    if d.active then
      let currentEffectScope := s.activeScope
      let p := fn { s with activeScope := some sid }
      ({ p.1 with activeScope := currentEffectScope }, p.2.map some)
    else (s, Except.ok none)
  | none => (s, Except.ok none)

/-- Whether the scope with the given id exists and is active. -/
def scopeActiveB (s : SState) (sid : Nat) : Bool :=
  match alookup s.scopes sid with
  | some d => d.active
  | none => false

/-- Claim C6: `run` restores the previous `activeEffectScope` on every
exit path and for every function; when the scope is active it runs the
function in a state whose `activeEffectScope` is this scope and returns
the function's result (errors propagate, with the previous scope still
restored); when the scope is inactive it returns `undefined` without
running the function (the result does not depend on the function at all)
and leaves the state untouched. -/
theorem claim_C6 {ε α : Type} (s : SState) (sid : Nat) :
    (∀ fn : SState → SState × Except ε α,
      (scopeRun s sid fn).1.activeScope = s.activeScope)
    ∧ (scopeActiveB s sid = true →
        ∀ fn : SState → SState × Except ε α,
          scopeRun s sid fn =
            ({ (fn { s with activeScope := some sid }).1 with
                activeScope := s.activeScope },
              ((fn { s with activeScope := some sid }).2).map some))
    ∧ (scopeActiveB s sid = true →
        ∀ (fn : SState → SState × Except ε α) (t : SState) (e : ε),
          fn { s with activeScope := some sid } = (t, .error e) →
          scopeRun s sid fn =
            ({ t with activeScope := s.activeScope }, .error e))
    ∧ (scopeActiveB s sid = false →
        ∀ fn : SState → SState × Except ε α,
          scopeRun s sid fn = (s, Except.ok none)) := by
  refine ⟨?_, ?_, ?_, ?_⟩
  · intro fn
    cases hd : alookup s.scopes sid with
    | none => simp [scopeRun, hd]
    | some d =>
      cases ha : d.active with
      | true => simp [scopeRun, hd, ha]
      | false => simp [scopeRun, hd, ha]
  · intro hact fn
    cases hd : alookup s.scopes sid with
    | none => simp [scopeActiveB, hd] at hact
    | some d =>
      simp only [scopeActiveB, hd] at hact
      simp [scopeRun, hd, hact]
  · intro hact fn t e hfn
    cases hd : alookup s.scopes sid with
    | none => simp [scopeActiveB, hd] at hact
    | some d =>
      simp only [scopeActiveB, hd] at hact
      simp [scopeRun, hd, hact, hfn, Except.map]
  · intro hact fn
    cases hd : alookup s.scopes sid with
    | none => simp [scopeRun, hd]
    | some d =>
      simp only [scopeActiveB, hd] at hact
      simp [scopeRun, hd, hact]

def activeScopeData : ScopeData :=
  { active := true, effects := [], cleanups := [], parent := none,
    scopes := [], index := none, detached := true }

def sC6w : SState :=
  { scopes := [(0, activeScopeData)], effectsStore := [],
    activeScope := none, trace := [] }

def fnC6w : SState → SState × Except Unit Nat :=
  fun st => ({ st with trace := st.trace ++ [.cleanupRun 99] }, .ok 42)

theorem claim_C6_witness :
    scopeActiveB sC6w 0 = true ∧
      scopeRun sC6w 0 fnC6w =
        ({ (fnC6w { sC6w with activeScope := some 0 }).1 with
            activeScope := sC6w.activeScope },
          ((fnC6w { sC6w with activeScope := some 0 }).2).map some) :=
  ⟨by decide, (claim_C6 sC6w 0).2.1 (by decide) fnC6w⟩

/-- A scope tree: a scope id with its owned effect ids, cleanup ids, and
child scope trees, used to describe the shape of a scope hierarchy in the
store. -/
inductive STree where
  | node (id : Nat) (effs : List Nat) (clns : List Nat) (children : List STree)

def STree.root : STree → Nat
  | .node i _ _ _ => i

def STree.allIds : STree → List Nat
  | .node i _ _ cs => i :: (cs.attach.map (fun x => STree.allIds x.1)).flatten
termination_by T => sizeOf T
decreasing_by
  have := List.sizeOf_lt_of_mem x.2
  simp only [STree.node.sizeOf_spec]
  omega

def STree.allEff : STree → List Nat
  | .node _ effs _ cs => effs ++ (cs.attach.map (fun x => STree.allEff x.1)).flatten
termination_by T => sizeOf T
decreasing_by
  have := List.sizeOf_lt_of_mem x.2
  simp only [STree.node.sizeOf_spec]
  omega

def STree.height : STree → Nat
  | .node _ _ _ cs => 1 + (cs.attach.map (fun x => STree.height x.1)).foldr max 0
termination_by T => sizeOf T
decreasing_by
  have := List.sizeOf_lt_of_mem x.2
  simp only [STree.node.sizeOf_spec]
  omega

/-- The teardown order stated by the spec for `EffectScope.stop`: stop the
owned effects in insertion order, then run the cleanups in insertion
order, then recurse into the child scopes in order. -/
def specStopOrder : STree → List SEvent
  | .node _ effs clns cs =>
    effs.map SEvent.effStop ++ clns.map SEvent.cleanupRun ++
      (cs.attach.map (fun x => specStopOrder x.1)).flatten
termination_by T => sizeOf T
decreasing_by
  have := List.sizeOf_lt_of_mem x.2
  simp only [STree.node.sizeOf_spec]
  omega

/-- Whether the store of `s` realizes the scope tree `T`: every node's
entry is active with exactly the listed effects, cleanups and children
(in order). -/
def representsB (s : SState) : STree → Bool
  | .node i effs clns cs =>
    match alookup s.scopes i with
    | some d =>
      d.active && d.effects == effs && d.cleanups == clns &&
        d.scopes == cs.map STree.root &&
        cs.attach.all (fun x => representsB s x.1)
    | none => false
termination_by T => sizeOf T
decreasing_by
  have := List.sizeOf_lt_of_mem x.2
  simp only [STree.node.sizeOf_spec]
  omega

/-- Structural induction for scope trees with access to all children. -/
def STreeInd {motive : STree → Prop}
    (h : ∀ i effs clns cs, (∀ T ∈ cs, motive T) →
      motive (STree.node i effs clns cs)) :
    ∀ T, motive T
  | STree.node i effs clns cs =>
    h i effs clns cs (fun T hT => STreeInd h T)
termination_by T => sizeOf T
decreasing_by
  have := List.sizeOf_lt_of_mem hT
  simp only [STree.node.sizeOf_spec]
  omega

theorem list_all_attach {α : Type} (l : List α) (f : α → Bool) :
    (l.attach.all fun x => f x.1) = l.all f := by
  rw [Bool.eq_iff_iff, List.all_eq_true, List.all_eq_true]
  constructor
  · intro h a ha
    exact h ⟨a, ha⟩ (List.mem_attach _ _)
  · intro h x _
    exact h x.1 x.2

theorem list_map_attach {α β : Type} (l : List α) (f : α → β) :
    (l.attach.map fun x => f x.1) = l.map f := by
  rw [List.attach_map_val]

theorem allIds_node (i : Nat) (effs clns : List Nat) (cs : List STree) :
    STree.allIds (.node i effs clns cs) = i :: (cs.map STree.allIds).flatten := by
  rw [STree.allIds, list_map_attach]

theorem allEff_node (i : Nat) (effs clns : List Nat) (cs : List STree) :
    STree.allEff (.node i effs clns cs) =
      effs ++ (cs.map STree.allEff).flatten := by
  rw [STree.allEff, list_map_attach]

theorem height_node (i : Nat) (effs clns : List Nat) (cs : List STree) :
    STree.height (.node i effs clns cs) =
      1 + (cs.map STree.height).foldr max 0 := by
  rw [STree.height, list_map_attach]

theorem specStopOrder_node (i : Nat) (effs clns : List Nat) (cs : List STree) :
    specStopOrder (.node i effs clns cs) =
      effs.map SEvent.effStop ++ clns.map SEvent.cleanupRun ++
        (cs.map specStopOrder).flatten := by
  rw [specStopOrder, list_map_attach]

theorem representsB_node (s : SState) (i : Nat) (effs clns : List Nat)
    (cs : List STree) :
    representsB s (.node i effs clns cs) =
      (match alookup s.scopes i with
       | some d =>
         d.active && d.effects == effs && d.cleanups == clns &&
           d.scopes == cs.map STree.root && cs.all (representsB s)
       | none => false) := by
  rw [representsB, list_all_attach]

theorem mem_allIds_child {T' : STree} {cs : List STree} {t i : Nat}
    {effs clns : List Nat} (hT : T' ∈ cs) (ht : t ∈ T'.allIds) :
    t ∈ (STree.node i effs clns cs).allIds := by
  rw [allIds_node]
  exact List.mem_cons_of_mem _
    (List.mem_flatten.mpr ⟨T'.allIds, List.mem_map_of_mem _ hT, ht⟩)

theorem mem_allEff_child {T' : STree} {cs : List STree} {e i : Nat}
    {effs clns : List Nat} (hT : T' ∈ cs) (he : e ∈ T'.allEff) :
    e ∈ (STree.node i effs clns cs).allEff := by
  rw [allEff_node]
  exact List.mem_append_right _
    (List.mem_flatten.mpr ⟨T'.allEff, List.mem_map_of_mem _ hT, he⟩)

/-- The realization predicate depends only on the store entries of the
tree's own ids. -/
theorem representsB_congr : ∀ (T : STree), ∀ (s s' : SState),
    (∀ t ∈ T.allIds, alookup s'.scopes t = alookup s.scopes t) →
    representsB s' T = representsB s T := by
  refine STreeInd ?_
  intro i effs clns cs ih s s' hag
  rw [representsB_node, representsB_node]
  have hagi : alookup s'.scopes i = alookup s.scopes i := by
    refine hag i ?_
    rw [allIds_node]
    exact List.mem_cons_self _ _
  rw [hagi]
  cases hd : alookup s.scopes i with
  | none => rfl
  | some d =>
    have hall : ∀ T' ∈ cs, representsB s' T' = representsB s T' := by
      intro T' hT'
      exact ih T' hT' s s' (fun t ht => hag t (mem_allIds_child hT' ht))
    have : cs.all (representsB s') = cs.all (representsB s) := by
      rw [Bool.eq_iff_iff, List.all_eq_true, List.all_eq_true]
      constructor
      · intro h T' hT'
        rw [← hall T' hT']
        exact h T' hT'
      · intro h T' hT'
        rw [hall T' hT']
        exact h T' hT'
    rw [this]

/-- Well-formedness of a realized scope tree: the store realizes it, its
scope ids and effect ids are duplicate-free, and all its effects are
active in the effect store. -/
def TreeWF (s : SState) (T : STree) : Prop :=
  representsB s T = true ∧ T.allIds.Nodup ∧ T.allEff.Nodup ∧
    ∀ e ∈ T.allEff, alookup s.effectsStore e = some true

/-- The final form of a stopped scope's entry: inactive, all lists
cleared, parent pointer dropped; `index` and `detached` are untouched. -/
def stoppedScope (d0 : ScopeData) : ScopeData :=
  { d0 with active := false, effects := [], cleanups := [], scopes := [], parent := none }

/-- The statement of the cascade lemma for one tree: stopping the root
with `fromParent = true` produces exactly the spec's teardown trace,
stops and empties every scope of the tree, deactivates exactly the tree's
effects, and touches nothing else. -/
def MasterP (T : STree) : Prop :=
  ∀ (s : SState) (fuel : Nat), TreeWF s T → T.height ≤ fuel →
    (scopeStopF fuel s T.root true).trace = s.trace ++ specStopOrder T
    ∧ (∀ t, t ∉ T.allIds →
        alookup (scopeStopF fuel s T.root true).scopes t = alookup s.scopes t)
    ∧ (∀ t ∈ T.allIds, ∃ d0, alookup s.scopes t = some d0 ∧
        alookup (scopeStopF fuel s T.root true).scopes t =
          some (stoppedScope d0))
    ∧ (∀ e, e ∉ T.allEff →
        alookup (scopeStopF fuel s T.root true).effectsStore e =
          alookup s.effectsStore e)
    ∧ (∀ e ∈ T.allEff,
        alookup (scopeStopF fuel s T.root true).effectsStore e = some false)
    ∧ (scopeStopF fuel s T.root true).activeScope = s.activeScope

theorem effectStop_active {s : SState} {e : Nat}
    (h : alookup s.effectsStore e = some true) :
    effectStop s e =
      { s with effectsStore := aupdate s.effectsStore e (fun _ => false),
               trace := s.trace ++ [.effStop e] } := by
  simp [effectStop, h]

theorem effFold (effs : List Nat) : ∀ (s : SState), effs.Nodup →
    (∀ e ∈ effs, alookup s.effectsStore e = some true) →
    (effs.foldl effectStop s).trace = s.trace ++ effs.map SEvent.effStop
    ∧ (effs.foldl effectStop s).scopes = s.scopes
    ∧ (effs.foldl effectStop s).activeScope = s.activeScope
    ∧ (∀ e, e ∉ effs →
        alookup (effs.foldl effectStop s).effectsStore e =
          alookup s.effectsStore e)
    ∧ (∀ e ∈ effs,
        alookup (effs.foldl effectStop s).effectsStore e = some false) := by
  induction effs with
  | nil =>
    intro s _ _
    simp
  | cons a rest ih =>
    intro s hnd hact
    have ha : alookup s.effectsStore a = some true := hact a (by simp)
    have hstep := effectStop_active ha
    obtain ⟨hnda, hndr⟩ := List.nodup_cons.mp hnd
    have hact1 : ∀ e ∈ rest, alookup (effectStop s a).effectsStore e = some true := by
      intro e he
      rw [hstep]
      show alookup (aupdate s.effectsStore a _) e = some true
      rw [alookup_aupdate_ne _ _ _ _ (fun h => hnda (by rw [← h]; exact he))]
      exact hact e (List.mem_cons_of_mem _ he)
    obtain ⟨ht, hsc, has, hfr, hin⟩ := ih (effectStop s a) hndr hact1
    simp only [List.foldl_cons]
    refine ⟨?_, ?_, ?_, ?_, ?_⟩
    · rw [ht, hstep]
      simp
    · rw [hsc, hstep]
    · rw [has, hstep]
    · intro e he
      have hea : e ≠ a ∧ e ∉ rest := by
        constructor
        · intro h
          exact he (h ▸ List.mem_cons_self _ _)
        · intro h
          exact he (List.mem_cons_of_mem _ h)
      rw [hfr e hea.2, hstep]
      exact alookup_aupdate_ne _ _ _ _ hea.1
    · intro e he
      rcases List.mem_cons.mp he with rfl | hr
      · rw [hfr e hnda, hstep]
        show alookup (aupdate s.effectsStore e fun _ => false) e = some false
        rw [alookup_aupdate_self, ha]
        rfl
      · exact hin e hr

theorem cleanupFold (clns : List Nat) : ∀ (s : SState),
    clns.foldl (fun acc c => { acc with trace := acc.trace ++ [.cleanupRun c] }) s =
      { s with trace := s.trace ++ clns.map SEvent.cleanupRun } := by
  induction clns with
  | nil =>
    intro s
    simp
  | cons a rest ih =>
    intro s
    simp only [List.foldl_cons, ih, List.map_cons]
    congr 1
    simp

theorem childrenFold (fuel : Nat) : ∀ (cs : List STree) (s : SState),
    (∀ T ∈ cs, MasterP T) →
    (∀ T ∈ cs, TreeWF s T) →
    (∀ T ∈ cs, T.height ≤ fuel) →
    (cs.map STree.allIds).Pairwise List.Disjoint →
    (cs.map STree.allEff).Pairwise List.Disjoint →
    ((cs.foldl (fun acc T => scopeStopF fuel acc T.root true) s).trace =
        s.trace ++ (cs.map specStopOrder).flatten)
    ∧ (∀ t, t ∉ (cs.map STree.allIds).flatten →
        alookup (cs.foldl (fun acc T => scopeStopF fuel acc T.root true) s).scopes t =
          alookup s.scopes t)
    ∧ (∀ t ∈ (cs.map STree.allIds).flatten, ∃ d0,
        alookup s.scopes t = some d0 ∧
          alookup (cs.foldl (fun acc T => scopeStopF fuel acc T.root true) s).scopes t =
            some (stoppedScope d0))
    ∧ (∀ e, e ∉ (cs.map STree.allEff).flatten →
        alookup (cs.foldl (fun acc T => scopeStopF fuel acc T.root true) s).effectsStore e =
          alookup s.effectsStore e)
    ∧ (∀ e ∈ (cs.map STree.allEff).flatten,
        alookup (cs.foldl (fun acc T => scopeStopF fuel acc T.root true) s).effectsStore e =
          some false)
    ∧ (cs.foldl (fun acc T => scopeStopF fuel acc T.root true) s).activeScope =
        s.activeScope := by
  intro cs
  induction cs with
  | nil =>
    intro s _ _ _ _ _
    simp
  | cons T rest ih =>
    intro s hma hwf hh hdis hdisE
    obtain ⟨h1, h2, h3, h4, h5, h6⟩ :=
      hma T (List.mem_cons_self _ _) s fuel (hwf T (List.mem_cons_self _ _))
        (hh T (List.mem_cons_self _ _))
    rw [List.map_cons] at hdis hdisE
    have hdisHead : ∀ l ∈ rest.map STree.allIds, T.allIds.Disjoint l :=
      (List.pairwise_cons.mp hdis).1
    have hdisRest := (List.pairwise_cons.mp hdis).2
    have hdisHeadE : ∀ l ∈ rest.map STree.allEff, T.allEff.Disjoint l :=
      (List.pairwise_cons.mp hdisE).1
    have hdisRestE := (List.pairwise_cons.mp hdisE).2
    have hnotHead : ∀ {t : Nat}, t ∈ (rest.map STree.allIds).flatten →
        t ∉ T.allIds := by
      intro t hx hT
      obtain ⟨l, hl, hxl⟩ := List.mem_flatten.mp hx
      exact hdisHead l hl hT hxl
    have hnotHeadE : ∀ {e : Nat}, e ∈ (rest.map STree.allEff).flatten →
        e ∉ T.allEff := by
      intro e hx hT
      obtain ⟨l, hl, hxl⟩ := List.mem_flatten.mp hx
      exact hdisHeadE l hl hT hxl
    have hwf1 : ∀ T' ∈ rest, TreeWF (scopeStopF fuel s T.root true) T' := by
      intro T' hT'
      obtain ⟨hr, hn1, hn2, hae⟩ := hwf T' (List.mem_cons_of_mem _ hT')
      refine ⟨?_, hn1, hn2, ?_⟩
      · rw [representsB_congr T' s _ ?_]
        · exact hr
        · intro t ht
          refine h2 t ?_
          intro htT
          exact hdisHead T'.allIds (List.mem_map_of_mem _ hT') htT
            (by exact ht)
      · intro e he
        rw [h4 e ?_]
        · exact hae e he
        · intro heT
          exact hdisHeadE T'.allEff (List.mem_map_of_mem _ hT') heT he
    obtain ⟨g1, g2, g3, g4, g5, g6⟩ :=
      ih (scopeStopF fuel s T.root true)
        (fun T' h => hma T' (List.mem_cons_of_mem _ h)) hwf1
        (fun T' h => hh T' (List.mem_cons_of_mem _ h)) hdisRest hdisRestE
    simp only [List.foldl_cons]
    refine ⟨?_, ?_, ?_, ?_, ?_, ?_⟩
    · rw [g1, h1]
      simp [List.append_assoc]
    · intro t ht
      rw [List.map_cons, List.flatten_cons, List.mem_append] at ht
      push_neg at ht
      rw [g2 t ht.2, h2 t ht.1]
    · intro t ht
      rw [List.map_cons, List.flatten_cons, List.mem_append] at ht
      rcases ht with hT | hR
      · obtain ⟨d0, hd0, hd0'⟩ := h3 t hT
        refine ⟨d0, hd0, ?_⟩
        rw [g2 t ?_]
        · exact hd0'
        · intro hx
          exact hnotHead hx hT
      · obtain ⟨d0, hd0, hd0'⟩ := g3 t hR
        refine ⟨d0, ?_, hd0'⟩
        rw [← h2 t (hnotHead hR)]
        exact hd0
    · intro e he
      rw [List.map_cons, List.flatten_cons, List.mem_append] at he
      push_neg at he
      rw [g4 e he.2, h4 e he.1]
    · intro e he
      rw [List.map_cons, List.flatten_cons, List.mem_append] at he
      rcases he with hT | hR
      · rw [g4 e (fun hx => hnotHeadE hx hT)]
        exact h5 e hT
      · exact g5 e hR
    · rw [g6, h6]

theorem updScope_trace (s : SState) (i : Nat) (f : ScopeData → ScopeData) :
    (updScope s i f).trace = s.trace := rfl

theorem updScope_effectsStore (s : SState) (i : Nat) (f : ScopeData → ScopeData) :
    (updScope s i f).effectsStore = s.effectsStore := rfl

theorem updScope_activeScope (s : SState) (i : Nat) (f : ScopeData → ScopeData) :
    (updScope s i f).activeScope = s.activeScope := rfl

theorem slook_updScope_self (s : SState) (i : Nat) (f : ScopeData → ScopeData) :
    alookup (updScope s i f).scopes i = (alookup s.scopes i).map f :=
  alookup_aupdate_self _ _ _

theorem slook_updScope_ne (s : SState) (i t : Nat) (f : ScopeData → ScopeData)
    (h : t ≠ i) : alookup (updScope s i f).scopes t = alookup s.scopes t :=
  alookup_aupdate_ne _ _ _ _ h

theorem le_foldr_max (l : List Nat) (a : Nat) (h : a ∈ l) :
    a ≤ l.foldr max 0 := by
  induction l with
  | nil => simp at h
  | cons b t ih =>
    rcases List.mem_cons.mp h with rfl | ht
    · exact le_max_left _ _
    · exact le_trans (ih ht) (le_max_right _ _)


/-- State after `EffectScope.stop` line 128 (`this._active = false`). -/
def stopS1 (s : SState) (i : Nat) : SState :=
  updScope s i (fun q => { q with active := false })

/-- State after the effect-stopping loop (lines 130-132). -/
def stopS2 (s : SState) (i : Nat) (d : ScopeData) : SState :=
  d.effects.foldl effectStop (stopS1 s i)

/-- State after `this.effects.length = 0` (line 133). -/
def stopS3 (s : SState) (i : Nat) (d : ScopeData) : SState :=
  updScope (stopS2 s i d) i (fun q => { q with effects := [] })

/-- State after the cleanup loop (lines 135-137). -/
def stopS4 (s : SState) (i : Nat) (d : ScopeData) : SState :=
  d.cleanups.foldl
    (fun acc c => { acc with trace := acc.trace ++ [SEvent.cleanupRun c] })
    (stopS3 s i d)

/-- State after `this.cleanups.length = 0` (line 138). -/
def stopS5 (s : SState) (i : Nat) (d : ScopeData) : SState :=
  updScope (stopS4 s i d) i (fun q => { q with cleanups := [] })

/-- State after the child-scope loop (lines 140-143). -/
def stopS6 (f : Nat) (s : SState) (i : Nat) (d : ScopeData) : SState :=
  d.scopes.foldl (fun acc c => scopeStopF f acc c true) (stopS5 s i d)

/-- State after `this.scopes.length = 0` (line 144), just before the
parent unlink. -/
def stopS7 (f : Nat) (s : SState) (i : Nat) (d : ScopeData) : SState :=
  updScope (stopS6 f s i d) i (fun q => { q with scopes := [] })

theorem scopeStopF_active {s : SState} {i : Nat} {d : ScopeData} {f : Nat}
    (fromParent : Bool)
    (hd : alookup s.scopes i = some d) (hactive : d.active = true) :
    scopeStopF (f + 1) s i fromParent =
      updScope
        (match alookup (stopS7 f s i d).scopes i with
         | some dl =>
           if ! dl.detached && dl.parent.isSome && ! fromParent then
             popUnlink (stopS7 f s i d) i dl
           else stopS7 f s i d
         | none => stopS7 f s i d) i (fun q => { q with parent := none }) := by
  rw [scopeStopF]
  simp only [hd]
  rw [if_pos hactive]
  rfl

theorem stopS5_props {s : SState} {i : Nat} {d : ScopeData}
    (hd : alookup s.scopes i = some d)
    (hnd : d.effects.Nodup)
    (hact : ∀ e ∈ d.effects, alookup s.effectsStore e = some true) :
    (stopS5 s i d).trace =
      s.trace ++ d.effects.map SEvent.effStop ++ d.cleanups.map SEvent.cleanupRun
    ∧ alookup (stopS5 s i d).scopes i =
        some { d with active := false, effects := [], cleanups := [] }
    ∧ (∀ t, t ≠ i → alookup (stopS5 s i d).scopes t = alookup s.scopes t)
    ∧ (∀ e, e ∉ d.effects →
        alookup (stopS5 s i d).effectsStore e = alookup s.effectsStore e)
    ∧ (∀ e ∈ d.effects, alookup (stopS5 s i d).effectsStore e = some false)
    ∧ (stopS5 s i d).activeScope = s.activeScope := by
  obtain ⟨e2t, e2s, e2a, e2f, e2i⟩ :=
    effFold d.effects (stopS1 s i) hnd (fun e he => hact e he)
  have h4 : stopS4 s i d =
      { stopS3 s i d with
        trace := ((stopS3 s i d).trace ++ d.cleanups.map SEvent.cleanupRun) } :=
    cleanupFold d.cleanups (stopS3 s i d)
  refine ⟨?_, ?_, ?_, ?_, ?_, ?_⟩
  · show (stopS4 s i d).trace = _
    rw [h4]
    show (stopS2 s i d).trace ++ _ = _
    simp only [stopS2]
    rw [e2t]
    rfl
  · show alookup (updScope (stopS4 s i d) i _).scopes i = _
    rw [slook_updScope_self]
    have hsc4 : (stopS4 s i d).scopes = (stopS3 s i d).scopes := by rw [h4]
    rw [hsc4]
    show (alookup (updScope (stopS2 s i d) i _).scopes i).map _ = _
    rw [slook_updScope_self]
    simp only [stopS2]
    rw [e2s]
    show ((alookup (updScope s i _).scopes i).map _).map _ = _
    rw [slook_updScope_self, hd]
    rfl
  · intro t ht
    show alookup (updScope (stopS4 s i d) i _).scopes t = _
    rw [slook_updScope_ne _ _ _ _ ht]
    have hsc4 : (stopS4 s i d).scopes = (stopS3 s i d).scopes := by rw [h4]
    rw [hsc4]
    show alookup (updScope (stopS2 s i d) i _).scopes t = _
    rw [slook_updScope_ne _ _ _ _ ht]
    simp only [stopS2]
    rw [e2s]
    exact slook_updScope_ne _ _ _ _ ht
  · intro e he
    show alookup (stopS4 s i d).effectsStore e = _
    rw [h4]
    show alookup (stopS2 s i d).effectsStore e = _
    simp only [stopS2]
    exact e2f e he
  · intro e he
    show alookup (stopS4 s i d).effectsStore e = _
    rw [h4]
    show alookup (stopS2 s i d).effectsStore e = _
    simp only [stopS2]
    exact e2i e he
  · show (stopS4 s i d).activeScope = _
    rw [h4]
    show (stopS2 s i d).activeScope = _
    simp only [stopS2]
    rw [e2a]
    rfl

theorem stopS7_props (i : Nat) (effs clns : List Nat) (cs : List STree)
    (hma : ∀ T ∈ cs, MasterP T)
    {s : SState} {f : Nat} {d : ScopeData}
    (hwf : TreeWF s (.node i effs clns cs))
    (hh : (STree.node i effs clns cs).height ≤ f + 1)
    (hd : alookup s.scopes i = some d) :
    (stopS7 f s i d).trace = s.trace ++ specStopOrder (.node i effs clns cs)
    ∧ alookup (stopS7 f s i d).scopes i =
        some { d with active := false, effects := [], cleanups := [], scopes := [] }
    ∧ (∀ t, t ∉ (STree.node i effs clns cs).allIds →
        alookup (stopS7 f s i d).scopes t = alookup s.scopes t)
    ∧ (∀ t ∈ (cs.map STree.allIds).flatten, ∃ d0,
        alookup s.scopes t = some d0 ∧
          alookup (stopS7 f s i d).scopes t = some (stoppedScope d0))
    ∧ (∀ e, e ∉ (STree.node i effs clns cs).allEff →
        alookup (stopS7 f s i d).effectsStore e = alookup s.effectsStore e)
    ∧ (∀ e ∈ (STree.node i effs clns cs).allEff,
        alookup (stopS7 f s i d).effectsStore e = some false)
    ∧ (stopS7 f s i d).activeScope = s.activeScope := by
  obtain ⟨hrep, hidsN, heffN, hactAll⟩ := hwf
  rw [representsB_node, hd] at hrep
  simp only [Bool.and_eq_true, beq_iff_eq, List.all_eq_true] at hrep
  obtain ⟨⟨⟨⟨hactive, heffEq⟩, hclnEq⟩, hscEq⟩, hchild⟩ := hrep
  rw [allIds_node] at hidsN
  obtain ⟨hiNot, hflatN⟩ := List.nodup_cons.mp hidsN
  obtain ⟨hallN, hdisIds⟩ := List.nodup_flatten.mp hflatN
  rw [allEff_node] at heffN
  rw [List.nodup_append] at heffN
  obtain ⟨heffsN, hflatEN, hdisEffFlat⟩ := heffN
  obtain ⟨heachE, hdisE⟩ := List.nodup_flatten.mp hflatEN
  rw [height_node] at hh
  have hchildHeight : ∀ T' ∈ cs, T'.height ≤ f := by
    intro T' hT'
    have := le_foldr_max (cs.map STree.height) T'.height
      (List.mem_map_of_mem _ hT')
    omega
  have hactAll' : ∀ e ∈ effs, alookup s.effectsStore e = some true := by
    intro e he
    refine hactAll e ?_
    rw [allEff_node]
    exact List.mem_append_left _ he
  have hndD : d.effects.Nodup := by rw [heffEq]; exact heffsN
  have hactD : ∀ e ∈ d.effects, alookup s.effectsStore e = some true := by
    intro e he
    rw [heffEq] at he
    exact hactAll' e he
  obtain ⟨t5, l5i, l5ne, ef5, ei5, a5⟩ := stopS5_props hd hndD hactD
  have hwf5 : ∀ T' ∈ cs, TreeWF (stopS5 s i d) T' := by
    intro T' hT'
    have hwT' : TreeWF s T' := by
      refine ⟨hchild T' hT', ?_, ?_, ?_⟩
      · exact hallN T'.allIds (List.mem_map_of_mem _ hT')
      · exact heachE T'.allEff (List.mem_map_of_mem _ hT')
      · intro e he
        exact hactAll e (mem_allEff_child hT' he)
    obtain ⟨hr, hn1, hn2, hae⟩ := hwT'
    refine ⟨?_, hn1, hn2, ?_⟩
    · rw [representsB_congr T' s _ ?_]
      · exact hr
      · intro t ht
        refine l5ne t ?_
        intro hti
        apply hiNot
        subst hti
        exact List.mem_flatten.mpr ⟨T'.allIds, List.mem_map_of_mem _ hT', ht⟩
    · intro e he
      rw [ef5 e ?_]
      · exact hae e he
      · rw [heffEq]
        intro hef
        refine hdisEffFlat hef ?_
        exact List.mem_flatten.mpr ⟨T'.allEff, List.mem_map_of_mem _ hT', he⟩
  have h6eq : stopS6 f s i d =
      cs.foldl (fun acc T => scopeStopF f acc T.root true) (stopS5 s i d) := by
    show d.scopes.foldl _ _ = _
    rw [hscEq, List.foldl_map]
  obtain ⟨c1, c2, c3, c4, c5, c6⟩ :=
    childrenFold f cs (stopS5 s i d) hma hwf5 hchildHeight hdisIds hdisE
  refine ⟨?_, ?_, ?_, ?_, ?_, ?_, ?_⟩
  · show (stopS6 f s i d).trace = _
    rw [h6eq, c1, t5, specStopOrder_node, hclnEq, heffEq]
    simp [List.append_assoc]
  · show alookup (updScope (stopS6 f s i d) i _).scopes i = _
    rw [slook_updScope_self, h6eq, c2 i hiNot, l5i]
    rfl
  · intro t ht
    rw [allIds_node, List.mem_cons] at ht
    push_neg at ht
    show alookup (updScope (stopS6 f s i d) i _).scopes t = _
    rw [slook_updScope_ne _ _ _ _ ht.1, h6eq, c2 t ht.2]
    exact l5ne t ht.1
  · intro t htf
    have hti : t ≠ i := by
      intro h
      rw [h] at htf
      exact hiNot htf
    obtain ⟨d0, hd0, hd0'⟩ := c3 t htf
    refine ⟨d0, ?_, ?_⟩
    · rw [← l5ne t hti]
      exact hd0
    · show alookup (updScope (stopS6 f s i d) i _).scopes t = _
      rw [slook_updScope_ne _ _ _ _ hti, h6eq]
      exact hd0'
  · intro e he
    rw [allEff_node, List.mem_append] at he
    push_neg at he
    show alookup (stopS6 f s i d).effectsStore e = _
    rw [h6eq, c4 e he.2]
    refine ef5 e ?_
    rw [heffEq]
    exact he.1
  · intro e he
    rw [allEff_node, List.mem_append] at he
    show alookup (stopS6 f s i d).effectsStore e = _
    rcases he with h1 | h2
    · rw [h6eq, c4 e ?_]
      · refine ei5 e ?_
        rw [heffEq]
        exact h1
      · intro hx
        exact hdisEffFlat h1 hx
    · rw [h6eq]
      exact c5 e h2
  · show (stopS6 f s i d).activeScope = _
    rw [h6eq, c6, a5]

theorem masterStop : ∀ T, MasterP T := by
  refine STreeInd ?_
  intro i effs clns cs ih s fuel hwf hh
  have hh' := hh
  rw [height_node] at hh'
  obtain ⟨f, rfl⟩ : ∃ f, fuel = f + 1 := ⟨fuel - 1, by omega⟩
  have hrep := hwf.1
  rw [representsB_node] at hrep
  cases hd : alookup s.scopes i with
  | none =>
    rw [hd] at hrep
    simp at hrep
  | some d =>
    rw [hd] at hrep
    simp only [Bool.and_eq_true, beq_iff_eq, List.all_eq_true] at hrep
    have hactive := hrep.1.1.1.1
    have hids := hwf.2.1
    rw [allIds_node] at hids
    have hiNot := (List.nodup_cons.mp hids).1
    obtain ⟨P1, P2, P3, P4, P5, P6, P7⟩ := stopS7_props i effs clns cs ih hwf hh hd
    simp only [STree.root]
    rw [scopeStopF_active true hd hactive]
    have hmatch : (match alookup (stopS7 f s i d).scopes i with
        | some dl =>
          if ! dl.detached && dl.parent.isSome && ! true then
            popUnlink (stopS7 f s i d) i dl
          else stopS7 f s i d
        | none => stopS7 f s i d) = stopS7 f s i d := by
      rw [P2]
      simp
    rw [hmatch]
    refine ⟨?_, ?_, ?_, ?_, ?_, ?_⟩
    · rw [updScope_trace]
      exact P1
    · intro t ht
      have hti : t ≠ i := by
        intro h
        subst h
        apply ht
        rw [allIds_node]
        exact List.mem_cons_self _ _
      rw [slook_updScope_ne _ _ _ _ hti]
      exact P3 t ht
    · intro t ht
      rw [allIds_node, List.mem_cons] at ht
      rcases ht with rfl | hfl
      · refine ⟨d, hd, ?_⟩
        rw [slook_updScope_self, P2]
        rfl
      · have hti : t ≠ i := fun h => hiNot (h ▸ hfl)
        obtain ⟨d0, hd0, hd0'⟩ := P4 t hfl
        refine ⟨d0, hd0, ?_⟩
        rw [slook_updScope_ne _ _ _ _ hti]
        exact hd0'
    · intro e he
      show alookup (stopS7 f s i d).effectsStore e = _
      exact P5 e he
    · intro e he
      show alookup (stopS7 f s i d).effectsStore e = _
      exact P6 e he
    · show (stopS7 f s i d).activeScope = _
      exact P7

theorem scopeStopF_inactive {s : SState} {i : Nat} {d : ScopeData}
    (hd : alookup s.scopes i = some d) (h : d.active = false) :
    ∀ fuel fp, scopeStopF fuel s i fp = s := by
  intro fuel fp
  cases fuel with
  | zero => rfl
  | succ f =>
    rw [scopeStopF]
    simp [hd, h]

theorem swapPop_not_mem {l : List Nat} {r lst ix : Nat}
    (hn : l.Nodup) (hix : l[ix]? = some r) (hlast : l.getLast? = some lst) :
    (lst = r → r ∉ l.dropLast) ∧ (lst ≠ r → r ∉ l.dropLast.set ix lst) := by
  obtain ⟨hixlt, hixget⟩ := List.getElem?_eq_some_iff.mp hix
  have hsplit : l.dropLast ++ [lst] = l := List.dropLast_append_getLast? lst hlast
  constructor
  · intro heq hmem
    subst heq
    have hnd : (l.dropLast ++ [lst]).Nodup := by rw [hsplit]; exact hn
    rw [List.nodup_append] at hnd
    exact hnd.2.2 hmem (by simp)
  · intro hne2 hmem
    have hlastget : l[l.length - 1]? = some lst := by
      rw [← List.getLast?_eq_getElem?]
      exact hlast
    obtain ⟨hl1, hl1get⟩ := List.getElem?_eq_some_iff.mp hlastget
    have hixne : ix ≠ l.length - 1 := by
      intro h
      apply hne2
      have h2 := hix
      rw [h, hlastget] at h2
      exact Option.some.inj h2
    have hixlt1 : ix < l.length - 1 := by omega
    obtain ⟨j, hj, hgj⟩ := List.mem_iff_getElem.mp hmem
    have hjlen : j < l.dropLast.length := by
      simpa using hj
    rw [List.getElem_set] at hgj
    by_cases hji : ix = j
    · rw [if_pos hji] at hgj
      exact hne2 hgj
    · rw [if_neg hji] at hgj
      rw [List.getElem_dropLast] at hgj
      have hjl : j < l.length := by
        rw [List.length_dropLast] at hjlen
        omega
      have : j = ix :=
        (@List.Nodup.getElem_inj_iff ℕ l hn j hjl ix hixlt).mp
          (by rw [hgj, hixget])
      exact hji this.symm

/-- Claim C5: stopping an active scope stops its owned effects in
insertion order, then runs its cleanups in insertion order, then
recursively stops its child scopes (which skip their own parent-unlink
because `fromParent` is passed), exactly in the order `specStopOrder`
describes; every scope of the tree ends stopped and emptied; the scope is
unlinked from its parent's child array by swap-and-pop at its recorded
index (the popped last child, if it is not this scope, moves into the
vacated slot and has its recorded index updated); and any further call to
`stop` on it is a no-op, so each cleanup runs exactly once and all
descendants of a stopped scope are stopped. -/
theorem claim_C5 (s : SState) (T : STree) (fuel : Nat) (p ix : Nat)
    (d dpar : ScopeData)
    (hwf : TreeWF s T) (hfuel : T.height ≤ fuel)
    (hd : alookup s.scopes T.root = some d)
    (hdet : d.detached = false) (hpar : d.parent = some p)
    (hidx : d.index = some ix)
    (hdpar : alookup s.scopes p = some dpar)
    (hpnot : p ∉ T.allIds)
    (hpnotchild : p ∉ dpar.scopes)
    (hsib : ∀ c ∈ dpar.scopes, c = T.root ∨
        (c ∉ T.allIds ∧ (alookup s.scopes c).isSome = true))
    (hnodup : dpar.scopes.Nodup)
    (hix : dpar.scopes[ix]? = some T.root) :
    (scopeStopF fuel s T.root false).trace = s.trace ++ specStopOrder T
    ∧ (∀ t ∈ T.allIds, ∃ d0, alookup s.scopes t = some d0 ∧
        alookup (scopeStopF fuel s T.root false).scopes t =
          some (stoppedScope d0))
    ∧ (∀ e ∈ T.allEff,
        alookup (scopeStopF fuel s T.root false).effectsStore e = some false)
    ∧ (∀ e, e ∉ T.allEff →
        alookup (scopeStopF fuel s T.root false).effectsStore e =
          alookup s.effectsStore e)
    ∧ (∃ lst, dpar.scopes.getLast? = some lst ∧
        ((lst = T.root ∧
            alookup (scopeStopF fuel s T.root false).scopes p =
              some { dpar with scopes := dpar.scopes.dropLast })
         ∨ (lst ≠ T.root
            ∧ alookup (scopeStopF fuel s T.root false).scopes p =
                some { dpar with scopes := dpar.scopes.dropLast.set ix lst }
            ∧ ∃ dlst, alookup s.scopes lst = some dlst ∧
                alookup (scopeStopF fuel s T.root false).scopes lst =
                  some { dlst with index := some ix })))
    ∧ (∀ dq, alookup (scopeStopF fuel s T.root false).scopes p = some dq →
        T.root ∉ dq.scopes)
    ∧ (∀ t, t ∉ T.allIds → t ≠ p → t ∉ dpar.scopes →
        alookup (scopeStopF fuel s T.root false).scopes t = alookup s.scopes t)
    ∧ (scopeStopF fuel s T.root false).activeScope = s.activeScope
    ∧ (∀ fuel2 fp2,
        scopeStopF fuel2 (scopeStopF fuel s T.root false) T.root fp2 =
          scopeStopF fuel s T.root false) := by
  cases T with
  | node i effs clns cs =>
    simp only [STree.root] at hd hpnot hsib hix ⊢
    have hh' := hfuel
    rw [height_node] at hh'
    obtain ⟨f, rfl⟩ : ∃ f, fuel = f + 1 := ⟨fuel - 1, by omega⟩
    have hrep := hwf.1
    rw [representsB_node, hd] at hrep
    simp only [Bool.and_eq_true, beq_iff_eq, List.all_eq_true] at hrep
    have hactive := hrep.1.1.1.1
    have hids := hwf.2.1
    rw [allIds_node] at hids
    have hiNot := (List.nodup_cons.mp hids).1
    obtain ⟨P1, P2, P3, P4, P5, P6, P7⟩ :=
      stopS7_props i effs clns cs (fun T' _ => masterStop T') hwf hfuel hd
    rw [scopeStopF_active false hd hactive]
    have hmatch : (match alookup (stopS7 f s i d).scopes i with
        | some dl =>
          if ! dl.detached && dl.parent.isSome && ! false then
            popUnlink (stopS7 f s i d) i dl
          else stopS7 f s i d
        | none => stopS7 f s i d) =
        popUnlink (stopS7 f s i d) i
          { d with active := false, effects := [], cleanups := [], scopes := [] } := by
      rw [P2]
      simp [hdet, hpar]
    rw [hmatch]
    have hpi : p ≠ i := by
      intro h
      apply hpnot
      rw [h, allIds_node]
      exact List.mem_cons_self _ _
    have hp3 : alookup (stopS7 f s i d).scopes p = some dpar := by
      rw [P3 p hpnot]
      exact hdpar
    obtain ⟨hixlt0, _⟩ := List.getElem?_eq_some_iff.mp hix
    obtain ⟨lst, hlst⟩ : ∃ lst, dpar.scopes.getLast? = some lst := by
      cases h : dpar.scopes.getLast? with
      | some lst => exact ⟨lst, rfl⟩
      | none =>
        rw [List.getLast?_eq_none_iff.mp h] at hixlt0
        simp at hixlt0
    have hpop : popUnlink (stopS7 f s i d) i
        { d with active := false, effects := [], cleanups := [], scopes := [] } =
        (if lst = i then
          updScope (stopS7 f s i d) p
            (fun q => { q with scopes := q.scopes.dropLast })
         else
          updScope
            (updScope
              (updScope (stopS7 f s i d) p
                (fun q => { q with scopes := q.scopes.dropLast })) p
              (fun q => { q with scopes := q.scopes.set ix lst })) lst
            (fun q => { q with index := some ix })) := by
      simp only [popUnlink, hpar, hp3, hlst, hidx]
    rw [hpop]
    have hlstmem : lst ∈ dpar.scopes := List.mem_of_mem_getLast? hlst
    have hlstp : lst ≠ p := by
      intro h
      exact hpnotchild (h ▸ hlstmem)
    by_cases hcase : lst = i
    · rw [if_pos hcase]
      refine ⟨?_, ?_, ?_, ?_, ?_, ?_, ?_, ?_, ?_⟩
      · exact P1
      · intro t ht
        rw [allIds_node, List.mem_cons] at ht
        rcases ht with rfl | hfl
        · refine ⟨d, hd, ?_⟩
          rw [slook_updScope_self, slook_updScope_ne _ _ _ _ hpi.symm, P2]
          rfl
        · have hti : t ≠ i := fun h => hiNot (h ▸ hfl)
          have htp : t ≠ p := by
            intro h
            apply hpnot
            rw [← h, allIds_node]
            exact List.mem_cons_of_mem _ hfl
          obtain ⟨d0, hd0, hd0'⟩ := P4 t hfl
          refine ⟨d0, hd0, ?_⟩
          rw [slook_updScope_ne _ _ _ _ hti, slook_updScope_ne _ _ _ _ htp]
          exact hd0'
      · intro e he
        exact P6 e he
      · intro e he
        exact P5 e he
      · refine ⟨lst, hlst, Or.inl ⟨hcase, ?_⟩⟩
        rw [slook_updScope_ne _ _ _ _ hpi, slook_updScope_self, hp3]
        rfl
      · intro dq hdq
        rw [slook_updScope_ne _ _ _ _ hpi, slook_updScope_self, hp3] at hdq
        have : dq = { dpar with scopes := dpar.scopes.dropLast } :=
          (Option.some.inj hdq).symm
        rw [this]
        exact (swapPop_not_mem hnodup hix hlst).1 hcase
      · intro t htA htp htc
        have hti : t ≠ i := by
          intro h
          apply htA
          rw [h, allIds_node]
          exact List.mem_cons_self _ _
        rw [slook_updScope_ne _ _ _ _ hti, slook_updScope_ne _ _ _ _ htp]
        refine P3 t ?_
        rw [allIds_node]
        intro hmem
        rcases List.mem_cons.mp hmem with h | h
        · exact hti h
        · exact htA (by rw [allIds_node]; exact List.mem_cons_of_mem _ h)
      · exact P7
      · intro fuel2 fp2
        have hfin : alookup (updScope
            (updScope (stopS7 f s i d) p
              (fun q => { q with scopes := q.scopes.dropLast })) i
            (fun q => { q with parent := none })).scopes i =
            some (stoppedScope d) := by
          rw [slook_updScope_self, slook_updScope_ne _ _ _ _ hpi.symm, P2]
          rfl
        exact scopeStopF_inactive hfin rfl fuel2 fp2
    · rw [if_neg hcase]
      have hil : i ≠ lst := fun h => hcase h.symm
      rcases hsib lst hlstmem with h | ⟨hlstNot, hlstSome⟩
      · exact absurd h hcase
      obtain ⟨dlst, hdlst⟩ := Option.isSome_iff_exists.mp hlstSome
      have hlsti : lst ≠ i := hcase
      refine ⟨?_, ?_, ?_, ?_, ?_, ?_, ?_, ?_, ?_⟩
      · exact P1
      · intro t ht
        rw [allIds_node, List.mem_cons] at ht
        rcases ht with rfl | hfl
        · refine ⟨d, hd, ?_⟩
          rw [slook_updScope_self, slook_updScope_ne _ _ _ _ hil,
            slook_updScope_ne _ _ _ _ hpi.symm,
            slook_updScope_ne _ _ _ _ hpi.symm, P2]
          rfl
        · have hti : t ≠ i := fun h => hiNot (h ▸ hfl)
          have htp : t ≠ p := by
            intro h
            apply hpnot
            rw [← h, allIds_node]
            exact List.mem_cons_of_mem _ hfl
          have htl : t ≠ lst := by
            intro h
            apply hlstNot
            rw [← h, allIds_node]
            exact List.mem_cons_of_mem _ hfl
          obtain ⟨d0, hd0, hd0'⟩ := P4 t hfl
          refine ⟨d0, hd0, ?_⟩
          rw [slook_updScope_ne _ _ _ _ hti, slook_updScope_ne _ _ _ _ htl,
            slook_updScope_ne _ _ _ _ htp, slook_updScope_ne _ _ _ _ htp]
          exact hd0'
      · intro e he
        exact P6 e he
      · intro e he
        exact P5 e he
      · refine ⟨lst, hlst, Or.inr ⟨hcase, ?_, dlst, hdlst, ?_⟩⟩
        · rw [slook_updScope_ne _ _ _ _ hpi, slook_updScope_ne _ _ _ _ hlstp.symm,
            slook_updScope_self]
          rw [slook_updScope_self, hp3]
          rfl
        · rw [slook_updScope_ne _ _ _ _ hlsti, slook_updScope_self,
            slook_updScope_ne _ _ _ _ hlstp, slook_updScope_ne _ _ _ _ hlstp]
          rw [P3 lst hlstNot, hdlst]
          rfl
      · intro dq hdq
        rw [slook_updScope_ne _ _ _ _ hpi, slook_updScope_ne _ _ _ _ hlstp.symm,
          slook_updScope_self, slook_updScope_self, hp3] at hdq
        have : dq = { dpar with scopes := dpar.scopes.dropLast.set ix lst } :=
          (Option.some.inj hdq).symm
        rw [this]
        exact (swapPop_not_mem hnodup hix hlst).2 hcase
      · intro t htA htp htc
        have hti : t ≠ i := by
          intro h
          apply htA
          rw [h, allIds_node]
          exact List.mem_cons_self _ _
        have htl : t ≠ lst := fun h => htc (h ▸ hlstmem)
        rw [slook_updScope_ne _ _ _ _ hti, slook_updScope_ne _ _ _ _ htl,
          slook_updScope_ne _ _ _ _ htp, slook_updScope_ne _ _ _ _ htp]
        refine P3 t ?_
        rw [allIds_node]
        intro hmem
        rcases List.mem_cons.mp hmem with h | h
        · exact hti h
        · exact htA (by rw [allIds_node]; exact List.mem_cons_of_mem _ h)
      · exact P7
      · intro fuel2 fp2
        have hfin : alookup (updScope
            (updScope
              (updScope
                (updScope (stopS7 f s i d) p
                  (fun q => { q with scopes := q.scopes.dropLast })) p
                (fun q => { q with scopes := q.scopes.set ix lst })) lst
              (fun q => { q with index := some ix })) i
            (fun q => { q with parent := none })).scopes i =
            some (stoppedScope d) := by
          rw [slook_updScope_self, slook_updScope_ne _ _ _ _ hil,
            slook_updScope_ne _ _ _ _ hpi.symm,
            slook_updScope_ne _ _ _ _ hpi.symm, P2]
          rfl
        exact scopeStopF_inactive hfin rfl fuel2 fp2

def scope10 : ScopeData :=
  { active := true, effects := [], cleanups := [], parent := none,
    scopes := [1], index := none, detached := true }

def scope1 : ScopeData :=
  { active := true, effects := [20], cleanups := [30], parent := some 10,
    scopes := [2], index := some 0, detached := false }

def scope2 : ScopeData :=
  { active := true, effects := [21], cleanups := [31], parent := some 1,
    scopes := [], index := some 0, detached := false }

def sC5w : SState :=
  { scopes := [(10, scope10), (1, scope1), (2, scope2)],
    effectsStore := [(20, true), (21, true)], activeScope := none,
    trace := [] }

def tC5w : STree := .node 1 [20] [30] [.node 2 [21] [31] []]

theorem claim_C5_witness :
    (TreeWF sC5w tC5w
      ∧ tC5w.height ≤ 2
      ∧ alookup sC5w.scopes tC5w.root = some scope1
      ∧ scope1.detached = false
      ∧ scope1.parent = some 10
      ∧ scope1.index = some 0
      ∧ alookup sC5w.scopes 10 = some scope10
      ∧ 10 ∉ tC5w.allIds
      ∧ 10 ∉ scope10.scopes
      ∧ (∀ c ∈ scope10.scopes, c = tC5w.root ∨
          (c ∉ tC5w.allIds ∧ (alookup sC5w.scopes c).isSome = true))
      ∧ scope10.scopes.Nodup
      ∧ scope10.scopes[(0 : Nat)]? = some tC5w.root)
    ∧ ((scopeStopF 2 sC5w tC5w.root false).trace =
          sC5w.trace ++ specStopOrder tC5w
      ∧ (∀ t ∈ tC5w.allIds, ∃ d0, alookup sC5w.scopes t = some d0 ∧
          alookup (scopeStopF 2 sC5w tC5w.root false).scopes t =
            some (stoppedScope d0))
      ∧ (∀ e ∈ tC5w.allEff,
          alookup (scopeStopF 2 sC5w tC5w.root false).effectsStore e =
            some false)
      ∧ (∀ e, e ∉ tC5w.allEff →
          alookup (scopeStopF 2 sC5w tC5w.root false).effectsStore e =
            alookup sC5w.effectsStore e)
      ∧ (∃ lst, scope10.scopes.getLast? = some lst ∧
          ((lst = tC5w.root ∧
              alookup (scopeStopF 2 sC5w tC5w.root false).scopes 10 =
                some { scope10 with scopes := scope10.scopes.dropLast })
           ∨ (lst ≠ tC5w.root
              ∧ alookup (scopeStopF 2 sC5w tC5w.root false).scopes 10 =
                  some { scope10 with
                    scopes := scope10.scopes.dropLast.set 0 lst }
              ∧ ∃ dlst, alookup sC5w.scopes lst = some dlst ∧
                  alookup (scopeStopF 2 sC5w tC5w.root false).scopes lst =
                    some { dlst with index := some 0 })))
      ∧ (∀ dq, alookup (scopeStopF 2 sC5w tC5w.root false).scopes 10 =
            some dq → tC5w.root ∉ dq.scopes)
      ∧ (∀ t, t ∉ tC5w.allIds → t ≠ 10 → t ∉ scope10.scopes →
          alookup (scopeStopF 2 sC5w tC5w.root false).scopes t =
            alookup sC5w.scopes t)
      ∧ (scopeStopF 2 sC5w tC5w.root false).activeScope = sC5w.activeScope
      ∧ (∀ fuel2 fp2,
          scopeStopF fuel2 (scopeStopF 2 sC5w tC5w.root false) tC5w.root fp2 =
            scopeStopF 2 sC5w tC5w.root false)) := by
  have hAllIds : tC5w.allIds = [1, 2] := by
    simp [tC5w, allIds_node]
  have hAllEff : tC5w.allEff = [20, 21] := by
    simp [tC5w, allEff_node]
  have h1 : TreeWF sC5w tC5w := by
    refine ⟨?_, ?_, ?_, ?_⟩
    · rw [tC5w, representsB_node]
      simp only [sC5w, scope1, scope10, scope2, alookup]
      norm_num
      rw [representsB_node]
      simp only [alookup]
      norm_num [STree.root]
    · rw [hAllIds]
      decide
    · rw [hAllEff]
      decide
    · intro e he
      rw [hAllEff] at he
      rcases List.mem_cons.mp he with rfl | he2
      · decide
      · rcases List.mem_cons.mp he2 with rfl | he3
        · decide
        · simp at he3
  have h2 : tC5w.height ≤ 2 := by
    simp [tC5w, height_node]
  have h3 : alookup sC5w.scopes tC5w.root = some scope1 := by decide
  have h7 : alookup sC5w.scopes 10 = some scope10 := by decide
  have h8 : 10 ∉ tC5w.allIds := by
    rw [hAllIds]
    decide
  have h10 : ∀ c ∈ scope10.scopes, c = tC5w.root ∨
      (c ∉ tC5w.allIds ∧ (alookup sC5w.scopes c).isSome = true) := by
    intro c hc
    have : c = 1 := by
      simpa [scope10] using hc
    subst this
    left
    rfl
  have h12 : scope10.scopes[(0 : Nat)]? = some tC5w.root := by decide
  refine ⟨⟨h1, h2, h3, rfl, rfl, rfl, h7, h8, by decide, h10, by decide, h12⟩,
    claim_C5 sC5w tC5w 2 10 0 scope1 scope10 h1 h2 h3 rfl rfl rfl h7 h8
      (by decide) h10 (by decide) h12⟩
